import Mathlib

/-!
# Verification of the cm_api endpoint type framework

A shallow embedding, in Lean 4, of `src/python/src/cm_api/endpoints/types.py`:
the attribute-descriptor (de)serialization framework (`Attr`, `BaseApiObject`,
`ApiList`, the config helpers) and the command polling state machine
(`ApiCommand.fetch/wait/abort`), together with theorems about the
specification's claims.

Python exceptions are modelled by `Except PyErr`; Python values (including
JSON-decoded data, which in Python is just dicts/lists/strings/...) are
modelled by the inductive type `Value`.  Machinery notes:

* `datetime.datetime` values are modelled by `DateTime` (natural-number
  fields at microsecond granularity).
* `strftime(DATE_FMT)` is modelled by `formatDate`; it requires
  `1900 <= year` like CPython 2's `strftime`.
* `strptime(data, DATE_FMT)` is modelled by `parseDate`, following CPython's
  `_strptime` regexes for the directives appearing in
  `"%Y-%m-%dT%H:%M:%S.%fZ"`: `%Y` is exactly four digits, `%m`/`%d`/`%H`/`%M`/`%S`
  accept one or two digits (with the value ranges from `TimeRE`), `%f` accepts
  one to six digits and right-pads with zeros, and the resulting fields are
  validated by the `datetime` constructor (day must fit in the month, second
  at most 59, year at least 1).
-/

namespace CmApi

/-- `datetime.datetime` values (UTC, microsecond granularity). -/
structure DateTime where
  year : Nat
  month : Nat
  day : Nat
  hour : Nat
  minute : Nat
  second : Nat
  micro : Nat
  deriving DecidableEq, Repr

/-- Gregorian leap-year test, as implemented by `datetime`. -/
def isLeap (y : Nat) : Bool :=
  (y % 4 == 0 && y % 100 != 0) || y % 400 == 0

/-- Days in a month, as validated by the `datetime` constructor. -/
def daysInMonth (y m : Nat) : Nat :=
  if m == 2 then (if isLeap y then 29 else 28)
  else if m == 4 || m == 6 || m == 9 || m == 11 then 30
  else 31

/-- The field ranges accepted by the `datetime` constructor, intersected with
the `1900 <= year` requirement of Python 2's `strftime`. -/
def ValidDT (d : DateTime) : Prop :=
  1900 ≤ d.year ∧ d.year ≤ 9999 ∧
  1 ≤ d.month ∧ d.month ≤ 12 ∧
  1 ≤ d.day ∧ d.day ≤ daysInMonth d.year d.month ∧
  d.hour ≤ 23 ∧ d.minute ≤ 59 ∧ d.second ≤ 59 ∧ d.micro ≤ 999999

instance (d : DateTime) : Decidable (ValidDT d) := by
  unfold ValidDT; infer_instance

/-- A single decimal digit character. -/
def digitChar (n : Nat) : Char := Char.ofNat (48 + n)

/-- Numeric value of a decimal digit character. -/
def digitVal (c : Char) : Nat := c.toNat - 48

/-- Two-digit zero-padded rendering (`%m`, `%d`, `%H`, `%M`, `%S`). -/
def pad2 (n : Nat) : List Char := [digitChar (n / 10), digitChar (n % 10)]

/-- Four-digit zero-padded rendering (`%Y` for years up to 9999). -/
def pad4 (n : Nat) : List Char :=
  [digitChar (n / 1000), digitChar (n / 100 % 10), digitChar (n / 10 % 10),
   digitChar (n % 10)]

/-- Six-digit zero-padded rendering (`%f`). -/
def pad6 (n : Nat) : List Char :=
  [digitChar (n / 100000), digitChar (n / 10000 % 10), digitChar (n / 1000 % 10),
   digitChar (n / 100 % 10), digitChar (n / 10 % 10), digitChar (n % 10)]

/-- Two-digit `%m` values accepted by the `TimeRE` regex. -/
def rx2mo (n : Nat) : Bool := 1 ≤ n && n ≤ 12

/-- Two-digit `%d` values accepted by the `TimeRE` regex. -/
def rx2dy (n : Nat) : Bool := 1 ≤ n && n ≤ 31

/-- Two-digit `%H` values accepted by the `TimeRE` regex. -/
def rx2hr (n : Nat) : Bool := n ≤ 23

/-- Two-digit `%M` values accepted by the `TimeRE` regex. -/
def rx2mi (n : Nat) : Bool := n ≤ 59

/-- Two-digit `%S` values accepted by the `TimeRE` regex (leap seconds
60 and 61 pass the regex; the `datetime` constructor rejects them later). -/
def rx2se (n : Nat) : Bool := n ≤ 61

/-- One-digit `%m`/`%d` values accepted by the `TimeRE` regex. -/
def rx1pos (n : Nat) : Bool := 1 ≤ n && n ≤ 9

/-- One-digit `%H`/`%M`/`%S` values accepted by the `TimeRE` regex. -/
def rx1any (n : Nat) : Bool := n ≤ 9

/-- The character stream of `value.strftime("%Y-%m-%dT%H:%M:%S.%fZ")`. -/
def fmtChars (d : DateTime) : List Char :=
  pad4 d.year ++ ('-' :: (pad2 d.month ++ ('-' :: (pad2 d.day ++
  ('T' :: (pad2 d.hour ++ (':' :: (pad2 d.minute ++ (':' :: (pad2 d.second ++
  ('.' :: (pad6 d.micro ++ ['Z']))))))))))))

/-- `strftime("%Y-%m-%dT%H:%M:%S.%fZ")` as a string. -/
def formatDate (d : DateTime) : String := String.mk (fmtChars d)

/-- Consume exactly `k` decimal digits (the `%Y` regex `\d\d\d\d`). -/
def parseExactDigits : Nat → Nat → List Char → Option (Nat × List Char)
  | 0, acc, cs => some (acc, cs)
  | _ + 1, _, [] => none
  | k + 1, acc, c :: cs =>
      if c.isDigit then parseExactDigits k (acc * 10 + digitVal c) cs else none

/-- Consume one or two decimal digits, as the `_strptime.TimeRE` regexes for
`%m`, `%d`, `%H`, `%M`, `%S` do: a two-digit match is accepted iff `v2` holds
of its value, and a one-digit match (when the next character is not a digit)
iff `v1` holds of its value.  When two digits are present but `v2` fails, the
whole parse fails, because the following literal separator in the format can
never match a digit. -/
def parseOneOrTwo (v2 v1 : Nat → Bool) : List Char → Option (Nat × List Char)
  | [] => none
  | [c] => if c.isDigit && v1 (digitVal c) then some (digitVal c, []) else none
  | c1 :: c2 :: rest =>
      if c1.isDigit then
        if c2.isDigit then
          let n := digitVal c1 * 10 + digitVal c2
          if v2 n then some (n, rest) else none
        else if v1 (digitVal c1) then some (digitVal c1, c2 :: rest) else none
      else none

/-- Take up to `k` leading decimal digits. -/
def takeDigits : Nat → List Char → (List Nat × List Char)
  | 0, cs => ([], cs)
  | _ + 1, [] => ([], [])
  | k + 1, c :: cs =>
      if c.isDigit then
        let r := takeDigits k cs
        (digitVal c :: r.1, r.2)
      else ([], c :: cs)

/-- The `%f` directive: one to six digits, right-padded with zeros to a
microsecond count. -/
def parseFrac (cs : List Char) : Option (Nat × List Char) :=
  match takeDigits 6 cs with
  | ([], _) => none
  | (ds, rest) => some ((ds.foldl (fun a n => a * 10 + n) 0) * 10 ^ (6 - ds.length), rest)

/-- Match a literal character of the format string. -/
def lit (c : Char) : List Char → Option (List Char)
  | [] => none
  | c0 :: cs => if c0 = c then some cs else none

/-- `datetime.datetime.strptime(s, "%Y-%m-%dT%H:%M:%S.%fZ")` on a character
stream.  The directive regexes are those of CPython's `_strptime`; the final
range checks are the ones done by the `datetime` constructor (which rejects
second values 60 and 61 that the `%S` regex itself accepts, day numbers that
do not exist in the month, and year 0). -/
def parseChars (cs : List Char) : Option DateTime := do
  let (y, cs) ← parseExactDigits 4 0 cs
  let cs ← lit '-' cs
  let (mo, cs) ← parseOneOrTwo rx2mo rx1pos cs
  let cs ← lit '-' cs
  let (dy, cs) ← parseOneOrTwo rx2dy rx1pos cs
  let cs ← lit 'T' cs
  let (h, cs) ← parseOneOrTwo rx2hr rx1any cs
  let cs ← lit ':' cs
  let (mi, cs) ← parseOneOrTwo rx2mi rx1any cs
  let cs ← lit ':' cs
  let (se, cs) ← parseOneOrTwo rx2se rx1any cs
  let cs ← lit '.' cs
  let (us, cs) ← parseFrac cs
  let cs ← lit 'Z' cs
  match cs with
  | [] =>
      if 1 ≤ y && se ≤ 59 && dy ≤ daysInMonth y mo then
        some ⟨y, mo, dy, h, mi, se, us⟩
      else none
  | _ => none

/-- `datetime.datetime.strptime(s, "%Y-%m-%dT%H:%M:%S.%fZ")`. -/
def parseDate (s : String) : Option DateTime := parseChars s.data

/-- Does a string match the exact pattern `YYYY-MM-DDTHH:MM:SS.ffffffZ`
(every field fully zero-padded)? -/
def matchesPattern (s : String) : Bool :=
  match s.data with
  | y1 :: y2 :: y3 :: y4 :: c1 :: m1 :: m2 :: c2 :: d1 :: d2 :: c3 :: h1 :: h2 ::
    c4 :: n1 :: n2 :: c5 :: s1 :: s2 :: c6 :: f1 :: f2 :: f3 :: f4 :: f5 :: f6 ::
    c7 :: [] =>
      y1.isDigit && y2.isDigit && y3.isDigit && y4.isDigit && (c1 == '-') &&
      m1.isDigit && m2.isDigit && (c2 == '-') && d1.isDigit && d2.isDigit &&
      (c3 == 'T') && h1.isDigit && h2.isDigit && (c4 == ':') && n1.isDigit &&
      n2.isDigit && (c5 == ':') && s1.isDigit && s2.isDigit && (c6 == '.') &&
      f1.isDigit && f2.isDigit && f3.isDigit && f4.isDigit && f5.isDigit &&
      f6.isDigit && (c7 == 'Z')
  | _ => false

theorem digitChar_isDigit {n : Nat} (h : n < 10) : (digitChar n).isDigit = true := by
  interval_cases n <;> decide

theorem digitVal_digitChar {n : Nat} (h : n < 10) : digitVal (digitChar n) = n := by
  interval_cases n <;> decide

theorem digitChar_ne {n : Nat} (h : n < 10) (c : Char) (hc : c.isDigit = false) :
    digitChar n ≠ c := by
  intro he
  rw [← he] at hc
  rw [digitChar_isDigit h] at hc
  exact absurd hc (by simp)

theorem parseExactDigits_pad4 {y : Nat} (h : y ≤ 9999) (rest : List Char) :
    parseExactDigits 4 0 (pad4 y ++ rest) = some (y, rest) := by
  have h1 : y / 1000 < 10 := by omega
  have h2 : y / 100 % 10 < 10 := by omega
  have h3 : y / 10 % 10 < 10 := by omega
  have h4 : y % 10 < 10 := by omega
  simp only [pad4, List.cons_append, List.nil_append, parseExactDigits,
    digitChar_isDigit h1, digitChar_isDigit h2, digitChar_isDigit h3,
    digitChar_isDigit h4, if_true, digitVal_digitChar h1, digitVal_digitChar h2,
    digitVal_digitChar h3, digitVal_digitChar h4]
  congr 2
  omega

theorem parseOneOrTwo_pad2 {n : Nat} (h : n ≤ 99) {v2 v1 : Nat → Bool}
    (hv : v2 n = true) (c : Char) (rest : List Char) :
    parseOneOrTwo v2 v1 (pad2 n ++ c :: rest) = some (n, c :: rest) := by
  have h1 : n / 10 < 10 := by omega
  have h2 : n % 10 < 10 := by omega
  have hn : digitVal (digitChar (n / 10)) * 10 + digitVal (digitChar (n % 10)) = n := by
    rw [digitVal_digitChar h1, digitVal_digitChar h2]; omega
  simp only [pad2, List.cons_append, List.nil_append, parseOneOrTwo,
    digitChar_isDigit h1, digitChar_isDigit h2, if_true, hn, hv]

theorem takeDigits_pad6 {us : Nat} (h : us ≤ 999999) (c : Char)
    (hc : c.isDigit = false) (rest : List Char) :
    takeDigits 6 (pad6 us ++ c :: rest) =
      ([us / 100000, us / 10000 % 10, us / 1000 % 10, us / 100 % 10,
        us / 10 % 10, us % 10], c :: rest) := by
  have h1 : us / 100000 < 10 := by omega
  have h2 : us / 10000 % 10 < 10 := by omega
  have h3 : us / 1000 % 10 < 10 := by omega
  have h4 : us / 100 % 10 < 10 := by omega
  have h5 : us / 10 % 10 < 10 := by omega
  have h6 : us % 10 < 10 := by omega
  simp only [pad6, List.cons_append, List.nil_append, takeDigits,
    digitChar_isDigit h1, digitChar_isDigit h2, digitChar_isDigit h3,
    digitChar_isDigit h4, digitChar_isDigit h5, digitChar_isDigit h6, if_true, hc,
    Bool.false_eq_true, if_false, digitVal_digitChar h1, digitVal_digitChar h2,
    digitVal_digitChar h3, digitVal_digitChar h4, digitVal_digitChar h5,
    digitVal_digitChar h6]
  rfl

theorem parseFrac_pad6 {us : Nat} (h : us ≤ 999999) (c : Char)
    (hc : c.isDigit = false) (rest : List Char) :
    parseFrac (pad6 us ++ c :: rest) = some (us, c :: rest) := by
  rw [parseFrac, takeDigits_pad6 h c hc rest]
  simp only [List.foldl_cons, List.foldl_nil, List.length_cons, List.length_nil]
  norm_num
  omega

theorem lit_cons (c : Char) (rest : List Char) : lit c (c :: rest) = some rest := by
  simp [lit]

theorem doBind_some {α β : Type} (a : α) (f : α → Option β) :
    (do
      let x ← some a
      f x) = f a := rfl

set_option maxHeartbeats 1600000 in
/-- Parsing the formatted character stream of a valid timestamp recovers it
exactly. -/
theorem parseChars_fmtChars {d : DateTime} (h : ValidDT d) :
    parseChars (fmtChars d) = some d := by
  obtain ⟨hy1, hy2, hm1, hm2, hd1, hd2, hh, hmi, hs, hus⟩ := h
  have hzn : ('Z' : Char).isDigit = false := by decide
  have hd31 : d.day ≤ 31 := by
    have : daysInMonth d.year d.month ≤ 31 := by
      unfold daysInMonth
      split
      · split <;> omega
      · split <;> omega
    omega
  have hvmo : rx2mo d.month = true := by simp [rx2mo]; omega
  have hvdy : rx2dy d.day = true := by simp [rx2dy]; omega
  have hvhr : rx2hr d.hour = true := by simp [rx2hr]; omega
  have hvmi : rx2mi d.minute = true := by simp [rx2mi]; omega
  have hvse : rx2se d.second = true := by simp [rx2se]; omega
  have hcond2 : (1 ≤ d.year && d.second ≤ 59 && d.day ≤ daysInMonth d.year d.month) = true := by
    simp only [Bool.and_eq_true, decide_eq_true_eq]
    omega
  simp only [fmtChars, parseChars, parseExactDigits_pad4 hy2, lit_cons,
    doBind_some, parseOneOrTwo_pad2 (by omega : d.month ≤ 99) hvmo,
    parseOneOrTwo_pad2 (by omega : d.day ≤ 99) hvdy,
    parseOneOrTwo_pad2 (by omega : d.hour ≤ 99) hvhr,
    parseOneOrTwo_pad2 (by omega : d.minute ≤ 99) hvmi,
    parseOneOrTwo_pad2 (by omega : d.second ≤ 99) hvse,
    parseFrac_pad6 hus 'Z' hzn, hcond2, if_true]

/-- The formatted stream matches the strict `YYYY-MM-DDTHH:MM:SS.ffffffZ`
pattern. -/
theorem matchesPattern_formatDate {d : DateTime} (h : ValidDT d) :
    matchesPattern (formatDate d) = true := by
  obtain ⟨hy1, hy2, hm1, hm2, hd1, hd2, hh, hmi, hs, hus⟩ := h
  have hd31 : d.day ≤ 31 := by
    have : daysInMonth d.year d.month ≤ 31 := by
      unfold daysInMonth
      split
      · split <;> omega
      · split <;> omega
    omega
  show matchesPattern (String.mk (fmtChars d)) = true
  rw [matchesPattern]
  simp only [fmtChars, pad4, pad2, pad6, List.cons_append, List.nil_append]
  simp only [Bool.and_eq_true]
  repeat' apply And.intro
  all_goals first
    | exact digitChar_isDigit (by omega)
    | rfl

/-! ## The Python value model

Python values flowing through the framework: scalars, `datetime` values,
lists, dicts (both JSON-decoded objects and config mappings), `BaseApiObject`
instances and `ApiList` instances.  An instance's state is its `__dict__`: an
association list from attribute name to value which always contains the
`_resource_root` slot plus the schema attributes that have been set. -/

/-- Python exceptions raised by the framework.  `unknownAttr`/`readOnlyAttr`
are the two `AttributeError`s raised by `_check_attr` (the spec's
`UnknownAttributeError` and `ReadOnlyAttributeError`); `noAttr` is an
`AttributeError` from a failed attribute access (missing method or missing
instance attribute); `valueError` covers `strptime` failures (the spec's
`MalformedTimestampError`) and the `ValueError` of `_update` (the spec's
`TypeMismatchError`); `keyError` is the spec's `MalformedPayloadError`. -/
inductive PyErr where
  | unknownAttr (name : String)
  | readOnlyAttr (name : String)
  | noAttr
  | typeError
  | keyError (k : String)
  | valueError
  deriving DecidableEq, Repr

/-- Which of the modelled exceptions are Python `AttributeError`s (the class
caught by `except AttributeError` in `_update` and `to_json_dict`). -/
def PyErr.isAttributeError : PyErr → Bool
  | .unknownAttr _ => true
  | .readOnlyAttr _ => true
  | .noAttr => true
  | _ => false

/-- The `BaseApiObject` subclasses declared in the source file (plus the base
class itself, whose `_ATTRIBUTES` is empty). -/
inductive ClassName where
  | baseApiObject
  | apiHostRef
  | apiServiceRef
  | apiClusterRef
  | apiRoleRef
  | apiRoleConfigGroupRef
  | apiCommand
  | apiMetricData
  | apiMetric
  | apiActivity
  | apiCmPeer
  | apiHdfsReplicationArguments
  | apiHiveTable
  | apiHiveReplicationArguments
  | apiReplicationSchedule
  | apiConfig
  deriving DecidableEq, Repr

/-- The `atype` slot of an `Attr`: `None`, `datetime.datetime`, or a
`BaseApiObject` subclass. -/
inductive AType where
  | none_
  | dt
  | cls (c : ClassName)
  deriving DecidableEq, Repr

/-- The `Attr` descriptor: element type, writability, list-ness
(`Attr.__init__(atype=None, rw=True, is_api_list=False)`). -/
structure Attr where
  atype : AType := .none_
  rw : Bool := true
  is_api_list : Bool := false
  deriving DecidableEq, Repr

/-- `ROAttr(atype, is_api_list)`: an `Attr` with `rw=False`. -/
def ROAttr (t : AType := .none_) (l : Bool := false) : Attr :=
  { atype := t, rw := false, is_api_list := l }

/-- Python values. -/
inductive Value where
  | none_
  | bool (b : Bool)
  | str (s : String)
  | int (i : Int)
  | dt (d : DateTime)
  | list (xs : List Value)
  | dict (fields : List (String × Value))
  | obj (c : ClassName) (attrs : List (String × Value))
  | apiList (xs : List Value)

/-- Python truthiness (`if not x`): `None`, `False`, `0`, empty strings and
empty containers are falsy; `ApiList` defines `__len__`, so it is falsy when
empty; `BaseApiObject` and `datetime` instances are always truthy. -/
def truthy : Value → Bool
  | .none_ => false
  | .bool b => b
  | .str s => !(s == "")
  | .int i => !(i == 0)
  | .dt _ => true
  | .list xs => !xs.isEmpty
  | .dict fields => !fields.isEmpty
  | .obj _ _ => true
  | .apiList xs => !xs.isEmpty

/-- Python `len(x)` for the values that support it. -/
def pyLen : Value → Option Nat
  | .str s => some s.length
  | .list xs => some xs.length
  | .dict fields => some fields.length
  | .apiList xs => some xs.length
  | _ => none

/-- Dictionary / schema lookup `d[k]` (first matching key). -/
def lookupA {α : Type} : List (String × α) → String → Option α
  | [], _ => none
  | (k, v) :: rest, name => if k == name then some v else lookupA rest name

/-- Dictionary update `d[k] = v`: replace in place or append. -/
def setA : List (String × Value) → String → Value → List (String × Value)
  | [], name, v => [(name, v)]
  | (k, w) :: rest, name, v =>
      if k == name then (k, v) :: rest else (k, w) :: setA rest name v

/-- The per-class attribute schema: the `_ATTRIBUTES` dictionaries of the
source file (`None` entries are attributes with default behavior). -/
def schema : ClassName → List (String × Option Attr)
  | .baseApiObject => []
  | .apiHostRef => [("hostId", none)]
  | .apiServiceRef =>
      [("clusterName", none), ("serviceName", none), ("peerName", none)]
  | .apiClusterRef => [("clusterName", none)]
  | .apiRoleRef =>
      [("clusterName", none), ("serviceName", none), ("roleName", none)]
  | .apiRoleConfigGroupRef => [("roleConfigGroupName", none)]
  | .apiCommand =>
      [("id", some (ROAttr)),
       ("name", some (ROAttr)),
       ("startTime", some (ROAttr .dt)),
       ("endTime", some (ROAttr .dt)),
       ("active", some (ROAttr)),
       ("success", some (ROAttr)),
       ("resultMessage", some (ROAttr)),
       ("clusterRef", some (ROAttr (.cls .apiClusterRef))),
       ("serviceRef", some (ROAttr (.cls .apiServiceRef))),
       ("roleRef", some (ROAttr (.cls .apiRoleRef))),
       ("hostRef", some (ROAttr (.cls .apiHostRef))),
       ("children", some (ROAttr (.cls .apiCommand) true)),
       ("parent", some (ROAttr (.cls .apiCommand))),
       ("resultDataUrl", some (ROAttr))]
  | .apiMetricData =>
      [("timestamp", some (ROAttr .dt)), ("value", some (ROAttr))]
  | .apiMetric =>
      [("name", some (ROAttr)), ("context", some (ROAttr)),
       ("unit", some (ROAttr)), ("data", some (ROAttr (.cls .apiMetricData))),
       ("displayName", some (ROAttr)), ("description", some (ROAttr))]
  | .apiActivity =>
      [("name", some (ROAttr)), ("type", some (ROAttr)),
       ("parent", some (ROAttr)), ("startTime", some (ROAttr)),
       ("finishTime", some (ROAttr)), ("id", some (ROAttr)),
       ("status", some (ROAttr)), ("user", some (ROAttr)),
       ("group", some (ROAttr)), ("inputDir", some (ROAttr)),
       ("outputDir", some (ROAttr)), ("mapper", some (ROAttr)),
       ("combiner", some (ROAttr)), ("reducer", some (ROAttr)),
       ("queueName", some (ROAttr)), ("schedulerPriority", some (ROAttr))]
  | .apiCmPeer =>
      [("name", none), ("url", none), ("username", none), ("password", none)]
  | .apiHdfsReplicationArguments =>
      [("sourceService", some { atype := .cls .apiServiceRef }),
       ("sourcePath", none), ("destinationPath", none),
       ("mapreduceServiceName", none), ("userName", none), ("numMaps", none),
       ("dryRun", none), ("schedulerPoolName", none), ("abortOnError", none),
       ("preservePermissions", none), ("preserveBlockSize", none),
       ("preserveReplicationCount", none), ("removeMissingFiles", none)]
  | .apiHiveTable => [("database", none), ("tableName", none)]
  | .apiHiveReplicationArguments =>
      [("sourceService", some { atype := .cls .apiServiceRef }),
       ("tableFilters", some { atype := .cls .apiHiveTable }),
       ("exportDir", none), ("force", none), ("replicateData", none),
       ("hdfsArguments", some { atype := .cls .apiHdfsReplicationArguments }),
       ("dryRun", none)]
  | .apiReplicationSchedule =>
      [("startTime", some { atype := .dt }), ("endTime", some { atype := .dt }),
       ("interval", none), ("intervalUnit", none), ("paused", none),
       ("hdfsArguments", some { atype := .cls .apiHdfsReplicationArguments }),
       ("hiveArguments", some { atype := .cls .apiHiveReplicationArguments }),
       ("alertOnStart", none), ("alertOnSuccess", none),
       ("alertOnFail", none), ("alertOnAbort", none),
       ("id", some (ROAttr)), ("nextRun", some (ROAttr .dt)),
       ("history", some (ROAttr))]
  | .apiConfig =>
      [("name", none), ("value", none), ("required", some (ROAttr)),
       ("default", some (ROAttr)), ("displayName", some (ROAttr)),
       ("description", some (ROAttr)), ("relatedName", some (ROAttr)),
       ("validationState", some (ROAttr)), ("validationMessage", some (ROAttr))]

/-- `isinstance(x, target)` for instances of the modelled (flat) class
hierarchy: every class is a direct subclass of `BaseApiObject`. -/
def isInstanceOf (c target : ClassName) : Bool :=
  c == target || target == .baseApiObject

/-- `BaseApiObject._WHITELIST`: names `__setattr__` accepts unchecked. -/
def WHITELIST : List String := ["_resource_root", "_attributes"]

/-- `_check_attr(name, allow_ro)`: `AttributeError` for a name outside the
schema; `AttributeError` for a read-only attribute unless `allow_ro`. -/
def checkAttr (c : ClassName) (name : String) (allowRo : Bool) :
    Except PyErr (Option Attr) :=
  match lookupA (schema c) name with
  | none => .error (.unknownAttr name)
  | some oattr =>
      match oattr with
      | some a =>
          if !allowRo && !a.rw then .error (.readOnlyAttr name) else .ok oattr
      | none => .ok none

/-- The writable-attribute initialization loop of `BaseApiObject.__init__`:
every attribute whose descriptor is `None` or has `rw=True` is set to
`None`. -/
def writableInit (c : ClassName) : List (String × Value) :=
  (schema c).filterMap fun p =>
    match p.2 with
    | none => some (p.1, Value.none_)
    | some a => if a.rw then some (p.1, Value.none_) else none

/-- The instance `__dict__` right after `BaseApiObject.__init__` ran its
initialization (before any constructor keyword arguments are applied):
`_resource_root` plus all writable attributes set to `None`. -/
def baseAttrs (c : ClassName) (root : Value) : List (String × Value) :=
  ("_resource_root", root) :: writableInit c

/-- `config_to_api_list(dic)`: `{"items": [{"name": k, "value": v} ...]}`.
Values are embedded raw (not encoded). -/
def configToApiList (kvs : List (String × Value)) : Value :=
  .dict [("items", .list (kvs.map fun kv => .dict [("name", .str kv.1), ("value", kv.2)]))]

mutual

/-- `Attr.to_json(value, preserve_ro)`.  Branch order as in the source:
values exposing `to_json_dict` defer to it (`BaseApiObject` instances take
the `preserve_ro` argument; calling an `ApiList`'s zero-argument
`to_json_dict` with `preserve_ro` is a Python `TypeError`); config
dictionaries go through `config_to_api_list`; `datetime` values are
`strftime`-rendered (Python 2 `strftime` raises `ValueError` below year
1900); lists are encoded as an `ApiList` envelope when `is_api_list`, and
element-wise otherwise; anything else passes through raw. -/
def attrToJson (a : Attr) (preserveRo : Bool) : Value → Except PyErr Value
  | .obj c attrs =>
      match toJsonFields preserveRo c attrs with
      | .ok js => .ok (.dict js)
      | .error e => .error e
  | .apiList _ => .error .typeError
  | .dict kvs =>
      if a.atype == .cls .apiConfig then .ok (configToApiList kvs)
      else .ok (.dict kvs)
  | .dt d => if 1900 ≤ d.year then .ok (.str (formatDate d)) else .error .valueError
  | .list xs =>
      if a.is_api_list then
        match apiListEncodeElems xs with
        | .ok ys => .ok (.dict [("items", .list ys)])
        | .error e => .error e
      else
        match encodePlainElems a preserveRo xs with
        | .ok ys => .ok (.list ys)
        | .error e => .error e
  | .none_ => .ok .none_
  | .bool b => .ok (.bool b)
  | .str s => .ok (.str s)
  | .int i => .ok (.int i)

/-- The recursive element-wise encoding `[ self.to_json(x, preserve_ro) ]`
for plain (non-`is_api_list`) list values. -/
def encodePlainElems (a : Attr) (preserveRo : Bool) : List Value → Except PyErr (List Value)
  | [] => .ok []
  | v :: rest =>
      match attrToJson a preserveRo v with
      | .error e => .error e
      | .ok jv =>
          match encodePlainElems a preserveRo rest with
          | .error e => .error e
          | .ok js => .ok (jv :: js)

/-- The element encoding of `ApiList.to_json_dict`: `x.to_json_dict()` with
no arguments, so `BaseApiObject` elements are encoded with
`preserve_ro=False`; nested `ApiList` elements recurse; anything else lacks
`to_json_dict` and raises `AttributeError`. -/
def apiListElemToJson : Value → Except PyErr Value
  | .obj c attrs =>
      match toJsonFields false c attrs with
      | .ok js => .ok (.dict js)
      | .error e => .error e
  | .apiList xs =>
      match apiListEncodeElems xs with
      | .ok ys => .ok (.dict [("items", .list ys)])
      | .error e => .error e
  | _ => .error .noAttr

/-- `[ x.to_json_dict() for x in self.objects ]`. -/
def apiListEncodeElems : List Value → Except PyErr (List Value)
  | [] => .ok []
  | v :: rest =>
      match apiListElemToJson v with
      | .error e => .error e
      | .ok jv =>
          match apiListEncodeElems rest with
          | .error e => .error e
          | .ok js => .ok (jv :: js)

/-- The attribute loop of `BaseApiObject.to_json_dict(preserve_ro)`.  The
source iterates the schema and looks each attribute up on the instance; here
we equivalently iterate the instance `__dict__` and look each name up in the
schema (names outside the schema, such as `_resource_root`, and schema names
absent from the instance are skipped either way; Python dict iteration order
is arbitrary).  Read-only attributes are skipped unless `preserve_ro`;
`AttributeError`s from encoding a value are swallowed by the
`except AttributeError` and skip the attribute; other exceptions
propagate. -/
def toJsonFields (preserveRo : Bool) (c : ClassName) :
    List (String × Value) → Except PyErr (List (String × Value))
  | [] => .ok []
  | (name, v) :: rest =>
      match lookupA (schema c) name with
      | none => toJsonFields preserveRo c rest
      | some oattr =>
          if !preserveRo && (match oattr with | some a => !a.rw | none => false) then
            toJsonFields preserveRo c rest
          else
            match oattr with
            | some a =>
                match attrToJson a preserveRo v with
                | .ok jv =>
                    match toJsonFields preserveRo c rest with
                    | .ok js => .ok ((name, jv) :: js)
                    | .error e => .error e
                | .error e =>
                    if e.isAttributeError then toJsonFields preserveRo c rest
                    else .error e
            | none =>
                match toJsonFields preserveRo c rest with
                | .ok js => .ok ((name, v) :: js)
                | .error e => .error e

end

/-- `BaseApiObject.to_json_dict(preserve_ro)` of an instance with class `c`
and `__dict__` `attrs`. -/
def toJsonObj (preserveRo : Bool) (c : ClassName) (attrs : List (String × Value)) :
    Except PyErr Value :=
  match toJsonFields preserveRo c attrs with
  | .ok js => .ok (.dict js)
  | .error e => .error e

/-- `Attr.from_json` on data that is neither `None`, a string, a list nor a
dict: a temporal descriptor's `strptime` raises `TypeError`; a config or
list-of-elements descriptor's `data['items']` subscript raises `TypeError`;
a class-typed descriptor's `from_json_dict` ends up iterating `data` and
raises `AttributeError`; otherwise the raw value passes through. -/
def scalarFromJson (a : Attr) (v : Value) : Except PyErr Value :=
  if a.atype == .dt then .error .typeError
  else if a.atype == .cls .apiConfig then .error .typeError
  else if a.is_api_list then .error .typeError
  else
    match a.atype with
    | .cls _ => .error .noAttr
    | _ => .ok v

mutual

/-- `Attr.from_json(resource_root, data)`.  Branch order as in the source:
`None` short-circuits; a temporal descriptor parses via `strptime`; a
config descriptor returns the empty dict for falsy `items` and otherwise
infers the view from the field count of the first entry
(`json_to_config(data, len(first) == 2)`); a list-of-elements descriptor
decodes the `items` envelope via `ApiList.from_json_dict`; a plain list
decodes element-wise; a class-typed descriptor recurses via
`from_json_dict`; anything else passes through raw. -/
def attrFromJson (a : Attr) (root : Value) : Value → Except PyErr Value
  | .none_ => .ok .none_
  | .str s =>
      if a.atype == .dt then
        match parseDate s with
        | some d => .ok (.dt d)
        | none => .error .valueError
      else if a.atype == .cls .apiConfig then .error .typeError
      else if a.is_api_list then .error .typeError
      else
        match a.atype with
        | .cls _ => .error .noAttr
        | _ => .ok (.str s)
  | .dict fields =>
      if a.atype == .dt then .error .typeError
      else if a.atype == .cls .apiConfig then configFindItems fields
      else if a.is_api_list then apiListFindItems a.atype root fields
      else
        match a.atype with
        | .cls c =>
            match setAttrsDecode c root fields (baseAttrs c root) with
            | .ok ats => .ok (.obj c ats)
            | .error e => .error e
        | _ => .ok (.dict fields)
  | .list xs =>
      if a.atype == .dt then .error .typeError
      else if a.atype == .cls .apiConfig then .error .typeError
      else if a.is_api_list then .error .typeError
      else
        match decodePlainElems a root xs with
        | .ok ys => .ok (.list ys)
        | .error e => .error e
  | .bool b => scalarFromJson a (.bool b)
  | .int i => scalarFromJson a (.int i)
  | .dt d => scalarFromJson a (.dt d)
  | .obj c ats => scalarFromJson a (.obj c ats)
  | .apiList xs => scalarFromJson a (.apiList xs)
termination_by structural v => v

/-- The `Attr == ApiConfig` branch of `Attr.from_json`: find `data['items']`
(`KeyError` when absent), return `{}` when it is falsy, and otherwise call
`json_to_config(data, len(first) == 2)` where `first` is the first entry. -/
def configFindItems : List (String × Value) → Except PyErr Value
  | [] => .error (.keyError "items")
  | (k, v) :: rest =>
      if k == "items" then
        if !truthy v then .ok (.dict [])
        else
          match v with
          | .list (first :: restItems) =>
              match pyLen first with
              | some n =>
                  match jsonToConfigEntries (n == 2) (first :: restItems) [] with
                  | .ok kvs => .ok (.dict kvs)
                  | .error e => .error e
              | none => .error .typeError
          | .list [] => .ok (.dict [])
          | _ => .error .typeError
      else configFindItems rest
termination_by structural fs => fs

/-- The entry loop of `json_to_config(dic, full)`: key each entry by
`entry['name']` (`KeyError` when absent); in the full view the value is
`ApiConfig.from_json_dict(entry, None)`, in the summary view it is
`entry.get('value')` (defaulting to `None`).  (Non-dict entries and non-string
names fail; the model restricts dict keys to strings.) -/
def jsonToConfigEntries (full : Bool) :
    List Value → List (String × Value) → Except PyErr (List (String × Value))
  | [], acc => .ok acc
  | entry :: rest, acc =>
      match entry with
      | .dict efields =>
          match lookupA efields "name" with
          | none => .error (.keyError "name")
          | some (.str k) =>
              if full then
                match setAttrsDecode .apiConfig .none_ efields
                    (baseAttrs .apiConfig .none_) with
                | .error e => .error e
                | .ok cats =>
                    jsonToConfigEntries full rest (setA acc k (.obj .apiConfig cats))
              else
                jsonToConfigEntries full rest
                  (setA acc k ((lookupA efields "value").getD .none_))
          | some _ => .error .typeError
      | _ => .error .typeError
termination_by structural es _a => es

/-- The `is_api_list` branch of `Attr.from_json`
(`ApiList.from_json_dict(self._atype, data, resource_root)`): find
`dic['items']` (`KeyError` when absent) and decode each element via the
member class's `from_json_dict`. -/
def apiListFindItems (t : AType) (root : Value) :
    List (String × Value) → Except PyErr Value
  | [] => .error (.keyError "items")
  | (k, v) :: rest =>
      if k == "items" then
        match v with
        | .list xs =>
            match apiListDecodeElems t root xs with
            | .ok ys => .ok (.apiList ys)
            | .error e => .error e
        | _ => .error .typeError
      else apiListFindItems t root rest
termination_by structural fs => fs

/-- `[ member_cls.from_json_dict(x, resource_root) for x in json_list ]`.
A member class that is not a `BaseApiObject` subclass (or a non-dict
element) raises `AttributeError`. -/
def apiListDecodeElems (t : AType) (root : Value) :
    List Value → Except PyErr (List Value)
  | [] => .ok []
  | x :: rest =>
      match t with
      | .cls c =>
          match x with
          | .dict xf =>
              match setAttrsDecode c root xf (baseAttrs c root) with
              | .error e => .error e
              | .ok ats =>
                  match apiListDecodeElems t root rest with
                  | .ok ys => .ok (.obj c ats :: ys)
                  | .error e => .error e
          | _ => .error .noAttr
      | _ => .error .noAttr
termination_by structural xs => xs

/-- Element-wise decoding of a plain list under the same descriptor
(`[ self.from_json(resource_root, x) for x in data ]`). -/
def decodePlainElems (a : Attr) (root : Value) :
    List Value → Except PyErr (List Value)
  | [] => .ok []
  | x :: rest =>
      match attrFromJson a root x with
      | .error e => .error e
      | .ok y =>
          match decodePlainElems a root rest with
          | .ok ys => .ok (y :: ys)
          | .error e => .error e
termination_by structural xs => xs

/-- The loop of `_set_attrs(dic, allow_ro=True, from_json=True)` starting
from instance state `acc`: check each name against the schema (unknown
names raise), decode the value through its descriptor (`None` descriptors
store the raw value), and set it with `object.__setattr__`. -/
def setAttrsDecode (c : ClassName) (root : Value) :
    List (String × Value) → List (String × Value) → Except PyErr (List (String × Value))
  | [], acc => .ok acc
  | (k, v) :: rest, acc =>
      match checkAttr c k true with
      | .error e => .error e
      | .ok (some a) =>
          match attrFromJson a root v with
          | .error e => .error e
          | .ok v2 => setAttrsDecode c root rest (setA acc k v2)
      | .ok none => setAttrsDecode c root rest (setA acc k v)
termination_by structural fs _a => fs

end

/-- `cls.from_json_dict(dic, resource_root)`: construct an empty instance
(`cls(resource_root)` initializes `_resource_root` and the writable
attributes) and `_set_attrs(dic, allow_ro=True)`.  Iterating a non-dict
raises `AttributeError`. -/
def fromJsonDict (c : ClassName) (data : Value) (root : Value) : Except PyErr Value :=
  match data with
  | .dict fields =>
      match setAttrsDecode c root fields (baseAttrs c root) with
      | .ok ats => .ok (.obj c ats)
      | .error e => .error e
  | _ => .error .noAttr

/-- `json_to_config(dic, full)` as a standalone function. -/
def json_to_config (data : Value) (full : Bool) : Except PyErr Value :=
  match data with
  | .dict fields =>
      match lookupA fields "items" with
      | none => .error (.keyError "items")
      | some (.list entries) =>
          match jsonToConfigEntries full entries [] with
          | .ok kvs => .ok (.dict kvs)
          | .error e => .error e
      | some _ => .error .typeError
  | _ => .error .typeError

/-- The loop of `_set_attrs(attrs, allow_ro, from_json=False)` starting from
instance state `acc`: check each name against the schema and store the raw
value. -/
def setAttrsRaw (c : ClassName) (allowRo : Bool) :
    List (String × Value) → List (String × Value) → Except PyErr (List (String × Value))
  | [], acc => .ok acc
  | (k, v) :: rest, acc =>
      match checkAttr c k allowRo with
      | .error e => .error e
      | .ok _ => setAttrsRaw c allowRo rest (setA acc k v)

/-- `BaseApiObject.__init__(resource_root, **attrs)`: set `_resource_root`,
initialize all writable attributes to `None`, then apply the keyword
attributes with `_set_attrs(attrs, from_json=False)` (so unknown names and
read-only names raise). -/
def initObj (c : ClassName) (root : Value) (kwargs : List (String × Value)) :
    Except PyErr Value :=
  match setAttrsRaw c false kwargs (baseAttrs c root) with
  | .ok ats => .ok (.obj c ats)
  | .error e => .error e

/-- `BaseApiObject.__setattr__(name, val)`: whitelisted names
(`_resource_root`, `_attributes`) are stored unchecked; any other name goes
through `_check_attr(name, False)`. -/
def setAttrPy (c : ClassName) (attrs : List (String × Value)) (name : String)
    (v : Value) : Except PyErr (List (String × Value)) :=
  if WHITELIST.contains name then .ok (setA attrs name v)
  else
    match checkAttr c name false with
    | .error e => .error e
    | .ok _ => .ok (setA attrs name v)

/-- The attribute loop of `BaseApiObject._update`: for each name in `self`'s
schema, `getattr(api_obj, name)` (absent attributes are skipped via the
caught `AttributeError`), then `setattr(self, name, val)` (whose
`AttributeError` — in particular the read-only rejection — is caught by the
same `except` and skips the attribute). -/
def updateGo (c : ClassName) (otherAttrs : List (String × Value)) :
    List String → List (String × Value) → Except PyErr (List (String × Value))
  | [], acc => .ok acc
  | n :: rest, acc =>
      match lookupA otherAttrs n with
      | none => updateGo c otherAttrs rest acc
      | some v =>
          match setAttrPy c acc n v with
          | .ok acc2 => updateGo c otherAttrs rest acc2
          | .error e =>
              if e.isAttributeError then updateGo c otherAttrs rest acc
              else .error e

/-- `BaseApiObject._update(api_obj)`: `ValueError` (the spec's
`TypeMismatchError`) unless `isinstance(self, api_obj.__class__)`; then copy
the schema attributes present on `api_obj`. -/
def updateObj (selfC : ClassName) (selfAttrs : List (String × Value))
    (otherC : ClassName) (otherAttrs : List (String × Value)) :
    Except PyErr (List (String × Value)) :=
  if !(isInstanceOf selfC otherC) then .error .valueError
  else updateGo selfC otherAttrs ((schema selfC).map Prod.fst) selfAttrs

/-! ## The command polling state machine

`ApiCommand.fetch/wait/abort`.  The transport (the excluded resource-root
collaborator) is modelled by an environment giving the response of the k-th
GET on a path and the response of a POST; time is modelled by a counter that
advances by `dur k` while the k-th blocking fetch runs and by the slept
amount during `time.sleep`.  Each operation also returns the list of
transport calls it performed, as an observable. -/

/-- The transport/clock environment for command polling. -/
structure CmdEnv where
  get : Nat → String → Value
  post : String → Value
  dur : Nat → Nat

/-- `ApiCommand.SYNCHRONOUS_COMMAND_ID = -1`. -/
def SYNCHRONOUS_COMMAND_ID : Int := -1

/-- `getattr(x, name)` on an instance. -/
def getAttrPy (v : Value) (name : String) : Except PyErr Value :=
  match v with
  | .obj _ ats =>
      match lookupA ats name with
      | some w => .ok w
      | none => .error .noAttr
  | _ => .error .noAttr

/-- `self.id == ApiCommand.SYNCHRONOUS_COMMAND_ID` (`AttributeError` when
`id` was never set; values of other types compare unequal to `-1`). -/
def isSyncId (attrs : List (String × Value)) : Except PyErr Bool :=
  match lookupA attrs "id" with
  | none => .error .noAttr
  | some (.int i) => .ok (i == SYNCHRONOUS_COMMAND_ID)
  | some _ => .ok false

/-- `self._path()`: `'/commands/%d' % self.id` (`TypeError` for a non-integer
id). -/
def cmdPath (attrs : List (String × Value)) : Except PyErr String :=
  match lookupA attrs "id" with
  | none => .error .noAttr
  | some (.int i) => .ok ("/commands/" ++ toString i)
  | some _ => .error .typeError

/-- `self._get_resource_root()` followed by a method access on it: a `None`
resource root has no `get`/`post` and raises `AttributeError`; any other
root is served by the environment. -/
def liveRoot (attrs : List (String × Value)) : Except PyErr Value :=
  match lookupA attrs "_resource_root" with
  | none => .error .noAttr
  | some .none_ => .error .noAttr
  | some root => .ok root

/-- `ApiCommand.fetch()` (as the k-th GET of the environment): return `self`
unchanged — with no transport call — for the sentinel id; otherwise GET the
command path and decode a fresh instance. -/
def fetchCmd (env : CmdEnv) (k : Nat) (attrs : List (String × Value)) :
    Except PyErr (Value × List (String × String)) :=
  match isSyncId attrs with
  | .error e => .error e
  | .ok true => .ok (.obj .apiCommand attrs, [])
  | .ok false =>
      match liveRoot attrs with
      | .error e => .error e
      | .ok root =>
          match cmdPath attrs with
          | .error e => .error e
          | .ok path =>
              match fromJsonDict .apiCommand (env.get k path) root with
              | .ok o => .ok (o, [("GET", path)])
              | .error e => .error e

/-- The observable outcome of a terminated `wait`: the returned snapshot,
the transport calls made, the number of fetches, the clock at return, and
the total time slept. -/
structure WaitRes where
  res : Value
  calls : List (String × String)
  fetches : Nat
  endTime : Nat
  slept : Nat

/-- The polling loop of `ApiCommand.wait`: fetch a snapshot (the k-th GET,
advancing the clock by `dur k`); return it if no longer `active`; if a
deadline is set and has passed, return it anyway; otherwise sleep
`min(5, deadline - now)` (or a full 5 without deadline) and repeat.  `fuel`
bounds the number of iterations modelled; `ok none` means the loop was
still running after `fuel` iterations. -/
def waitLoopAux (env : CmdEnv) (path : String) (root : Value)
    (deadline : Option Nat) :
    Nat → Nat → Nat → Nat → List (String × String) → Except PyErr (Option WaitRes)
  | 0, _, _, _, _ => .ok none
  | fuel + 1, k, now, slept, calls =>
      let now2 := now + env.dur k
      match fromJsonDict .apiCommand (env.get k path) root with
      | .error e => .error e
      | .ok cmd =>
          match getAttrPy cmd "active" with
          | .error e => .error e
          | .ok av =>
              if !truthy av then
                .ok (some ⟨cmd, calls ++ [("GET", path)], k + 1, now2, slept⟩)
              else
                match deadline with
                | some dl =>
                    if dl < now2 then
                      .ok (some ⟨cmd, calls ++ [("GET", path)], k + 1, now2, slept⟩)
                    else
                      waitLoopAux env path root deadline fuel (k + 1)
                        (now2 + min 5 (dl - now2)) (slept + min 5 (dl - now2))
                        (calls ++ [("GET", path)])
                | none =>
                    waitLoopAux env path root deadline fuel (k + 1) (now2 + 5)
                      (slept + 5) (calls ++ [("GET", path)])

/-- `ApiCommand.wait(timeout)` starting at clock `t0`: the sentinel id
returns `self` immediately with no transport call and no sleeping;
otherwise `deadline = time.time() + timeout` (when supplied) and the poll
loop runs. -/
def waitCmd (env : CmdEnv) (attrs : List (String × Value)) (timeout : Option Nat)
    (t0 : Nat) (fuel : Nat) : Except PyErr (Option WaitRes) :=
  match isSyncId attrs with
  | .error e => .error e
  | .ok true => .ok (some ⟨.obj .apiCommand attrs, [], 0, t0, 0⟩)
  | .ok false =>
      let deadline := timeout.map fun t => t0 + t
      match liveRoot attrs with
      | .error e => .error e
      | .ok root =>
          match cmdPath attrs with
          | .error e => .error e
          | .ok path => waitLoopAux env path root deadline fuel 0 t0 0 []

/-- `ApiCommand.abort()`: return `self` unchanged — with no transport call —
for the sentinel id; otherwise POST to the abort sub-path and decode the
returned snapshot. -/
def abortCmd (env : CmdEnv) (attrs : List (String × Value)) :
    Except PyErr (Value × List (String × String)) :=
  match isSyncId attrs with
  | .error e => .error e
  | .ok true => .ok (.obj .apiCommand attrs, [])
  | .ok false =>
      match cmdPath attrs with
      | .error e => .error e
      | .ok path =>
          match liveRoot attrs with
          | .error e => .error e
          | .ok root =>
              match fromJsonDict .apiCommand (env.post (path ++ "/abort")) root with
              | .ok o => .ok (o, [("POST", path ++ "/abort")])
              | .error e => .error e

/-! ## Association-list lemmas -/

theorem lookupA_setA_self (l : List (String × Value)) (k : String) (v : Value) :
    lookupA (setA l k v) k = some v := by
  induction l with
  | nil => simp [setA, lookupA]
  | cons p rest ih =>
      obtain ⟨k2, w⟩ := p
      by_cases h : k2 == k
      · simp [setA, h, lookupA]
      · simp [setA, h, lookupA, ih]

theorem lookupA_setA_ne (l : List (String × Value)) (k n : String) (v : Value)
    (h : k ≠ n) : lookupA (setA l k v) n = lookupA l n := by
  induction l with
  | nil => simp [setA, lookupA, h]
  | cons p rest ih =>
      obtain ⟨k2, w⟩ := p
      by_cases h2 : k2 == k
      · have hk : k2 = k := by simpa using h2
        subst hk
        simp [setA, lookupA, h]
      · by_cases h3 : k2 == n
        · simp [setA, h2, lookupA, h3]
        · simp [setA, h2, lookupA, h3, ih]

theorem setA_of_absent (l : List (String × Value)) (k : String) (v : Value)
    (h : lookupA l k = none) : setA l k v = l ++ [(k, v)] := by
  induction l with
  | nil => simp [setA]
  | cons p rest ih =>
      obtain ⟨k2, w⟩ := p
      by_cases h2 : k2 == k
      · simp [lookupA, h2] at h
      · simp [lookupA, h2] at h
        simp [setA, h2, ih h]

theorem setA_append_of_absent (pre l : List (String × Value)) (k : String)
    (v : Value) (h : lookupA pre k = none) :
    setA (pre ++ l) k v = pre ++ setA l k v := by
  induction pre with
  | nil => simp
  | cons p rest ih =>
      obtain ⟨k2, w⟩ := p
      by_cases h2 : k2 == k
      · simp [lookupA, h2] at h
      · simp [lookupA, h2] at h
        simp [setA, h2, ih h]

theorem lookupA_isSome_setA (l : List (String × Value)) (k n : String) (v : Value)
    (h : (lookupA l n).isSome) : (lookupA (setA l k v) n).isSome := by
  by_cases he : k = n
  · subst he
    rw [lookupA_setA_self]
    rfl
  · rw [lookupA_setA_ne l k n v he]
    exact h

theorem lookupA_eq_none_iff {α : Type} (l : List (String × α)) (k : String) :
    lookupA l k = none ↔ k ∉ l.map Prod.fst := by
  induction l with
  | nil => simp [lookupA]
  | cons p rest ih =>
      obtain ⟨k2, w⟩ := p
      by_cases h2 : k2 == k
      · have hk : k2 = k := by simpa using h2
        subst hk
        simp [lookupA]
      · have hne : k2 ≠ k := by simpa using h2
        simp [lookupA, h2, ih, hne, Ne.symm hne]

/-! ## Schema facts -/

theorem schema_no_resource_root (c : ClassName) :
    lookupA (schema c) "_resource_root" = none := by
  cases c <;> rfl

theorem schema_no_attributes_slot (c : ClassName) :
    lookupA (schema c) "_attributes" = none := by
  cases c <;> rfl

theorem not_whitelist_of_schema (c : ClassName) (name : String) (oa : Option Attr)
    (h : lookupA (schema c) name = some oa) : WHITELIST.contains name = false := by
  by_contra hw
  have hw2 : name = "_resource_root" ∨ name = "_attributes" := by
    have := Bool.of_not_eq_false hw
    simpa [WHITELIST] using this
  rcases hw2 with rfl | rfl
  · rw [schema_no_resource_root] at h
    cases h
  · rw [schema_no_attributes_slot] at h
    cases h

/-! ## Claims -/

/-- Claim C2 (code bug evaluation): at the failing input — a non-empty
`items` envelope whose first entry has exactly the 2 summary fields
`name`/`value` — `Attr.from_json` on a config-typed descriptor produces the
mapping to *fully-decoded `ApiConfig` records*, and at an entry with more
than 2 fields it produces the mapping to *raw values*: exactly the reverse
of the claimed shapes (the code passes `full = (len(first) == 2)` to
`json_to_config`).  The empty-items part of the claim does hold. -/
theorem C2_config_shape_eval :
    attrFromJson { atype := .cls .apiConfig } .none_
      (.dict [("items", .list [.dict [("name", .str "a"), ("value", .str "b")]])]) =
      .ok (.dict [("a", .obj .apiConfig
        [("_resource_root", .none_), ("name", .str "a"), ("value", .str "b")])]) ∧
    attrFromJson { atype := .cls .apiConfig } .none_
      (.dict [("items", .list [.dict [("name", .str "a"), ("value", .str "b"),
        ("required", .bool true)]])]) = .ok (.dict [("a", .str "b")]) ∧
    attrFromJson { atype := .cls .apiConfig } .none_ (.dict [("items", .list [])]) =
      .ok (.dict []) :=
  ⟨rfl, rfl, rfl⟩

/-- Claim C5: on a command whose `id` equals the sentinel synchronous-command
id (`-1`), `fetch`, `wait` (for every timeout) and `abort` perform no
transport call and return the same instance unchanged. -/
theorem C5_synchronous_no_network (env : CmdEnv) (attrs : List (String × Value))
    (h : lookupA attrs "id" = some (.int (-1))) :
    (∀ k, fetchCmd env k attrs = .ok (.obj .apiCommand attrs, [])) ∧
    (∀ timeout t0 fuel, waitCmd env attrs timeout t0 fuel =
      .ok (some ⟨.obj .apiCommand attrs, [], 0, t0, 0⟩)) ∧
    abortCmd env attrs = .ok (.obj .apiCommand attrs, []) := by
  have hs : isSyncId attrs = .ok true := by
    simp [isSyncId, h, SYNCHRONOUS_COMMAND_ID]
  refine ⟨fun k => ?_, fun timeout t0 fuel => ?_, ?_⟩
  · simp [fetchCmd, hs]
  · simp [waitCmd, hs]
  · simp [abortCmd, hs]

theorem C5_witness :
    fetchCmd ⟨fun _ _ => .none_, fun _ => .none_, fun _ => 1⟩ 0 [("id", .int (-1))] =
      .ok (.obj .apiCommand [("id", .int (-1))], []) ∧
    waitCmd ⟨fun _ _ => .none_, fun _ => .none_, fun _ => 1⟩ [("id", .int (-1))]
      (some 0) 0 7 = .ok (some ⟨.obj .apiCommand [("id", .int (-1))], [], 0, 0, 0⟩) ∧
    abortCmd ⟨fun _ _ => .none_, fun _ => .none_, fun _ => 1⟩ [("id", .int (-1))] =
      .ok (.obj .apiCommand [("id", .int (-1))], []) := by
  have h := C5_synchronous_no_network
    ⟨fun _ _ => .none_, fun _ => .none_, fun _ => 1⟩ [("id", .int (-1))] rfl
  exact ⟨h.1 0, h.2.1 (some 0) 0 7, h.2.2⟩

/-- Claim C6: for every record type and every read-only schema attribute,
constructing an instance with that attribute or assigning it outside the
decode path raises the read-only `AttributeError` (the spec's
`ReadOnlyAttributeError`), while decoding a JSON object naming the same
attribute sets it (whenever the attribute's value itself decodes). -/
theorem C6_readonly_enforcement (c : ClassName) (name : String) (a : Attr)
    (hs : lookupA (schema c) name = some (some a)) (hro : a.rw = false) :
    (∀ root v, initObj c root [(name, v)] = .error (.readOnlyAttr name)) ∧
    (∀ attrs v, setAttrPy c attrs name v = .error (.readOnlyAttr name)) ∧
    (∀ root jv v2, attrFromJson a root jv = .ok v2 →
      ∃ ats, fromJsonDict c (.dict [(name, jv)]) root = .ok (.obj c ats) ∧
        lookupA ats name = some v2) := by
  have hck : checkAttr c name false = .error (.readOnlyAttr name) := by
    simp [checkAttr, hs, hro]
  refine ⟨fun root v => ?_, fun attrs v => ?_, fun root jv v2 hdec => ?_⟩
  · simp [initObj, setAttrsRaw, hck]
  · have hnw : name ∉ WHITELIST := by
      simpa using not_whitelist_of_schema c name (some a) hs
    simp [setAttrPy, hnw, hck]
  · refine ⟨setA (baseAttrs c root) name v2, ?_, lookupA_setA_self _ _ _⟩
    simp [fromJsonDict, setAttrsDecode, checkAttr, hs, hdec]

theorem C6_witness :
    initObj .apiConfig .none_ [("required", .int 1)] =
      .error (.readOnlyAttr "required") ∧
    setAttrPy .apiConfig [] "required" (.int 1) =
      .error (.readOnlyAttr "required") ∧
    (∃ ats, fromJsonDict .apiConfig (.dict [("required", .str "x")]) .none_ =
      .ok (.obj .apiConfig ats) ∧ lookupA ats "required" = some (.str "x")) := by
  have h := C6_readonly_enforcement .apiConfig "required" (ROAttr) rfl rfl
  exact ⟨h.1 .none_ (.int 1), h.2.1 [] (.int 1), h.2.2 .none_ (.str "x") (.str "x") rfl⟩

/-- Claim C7 counterexample: assigning the name `_resource_root` — a name
absent from every schema — does *not* raise: `__setattr__` whitelists it and
stores it unchecked. -/
theorem C7_counterexample :
    setAttrPy .apiConfig [] "_resource_root" (.int 3) =
      .ok [("_resource_root", .int 3)] ∧
    lookupA (schema .apiConfig) "_resource_root" = none :=
  ⟨rfl, rfl⟩

/-- Claim C7 (amended): constructing with, or decoding, an attribute name
absent from the schema raises the unknown-attribute `AttributeError` (the
spec's `UnknownAttributeError`); assigning such a name raises it too unless
the name is one of the two whitelisted internal slots (`_resource_root`,
`_attributes`), which are stored unchecked. -/
theorem C7_unknown_rejection (c : ClassName) (name : String)
    (h : lookupA (schema c) name = none) :
    (∀ root v, initObj c root [(name, v)] = .error (.unknownAttr name)) ∧
    (∀ root v, fromJsonDict c (.dict [(name, v)]) root = .error (.unknownAttr name)) ∧
    (∀ attrs v, WHITELIST.contains name = false →
      setAttrPy c attrs name v = .error (.unknownAttr name)) ∧
    (∀ attrs v, WHITELIST.contains name = true →
      setAttrPy c attrs name v = .ok (setA attrs name v)) := by
  have hck : ∀ allowRo, checkAttr c name allowRo = .error (.unknownAttr name) := by
    intro allowRo
    simp [checkAttr, h]
  refine ⟨fun root v => ?_, fun root v => ?_, fun attrs v hw => ?_, fun attrs v hw => ?_⟩
  · simp [initObj, setAttrsRaw, hck]
  · simp [fromJsonDict, setAttrsDecode, hck]
  · have hw2 : name ∉ WHITELIST := by simpa using hw
    simp [setAttrPy, hw2, hck]
  · have hw2 : name ∈ WHITELIST := by simpa using hw
    simp [setAttrPy, hw2]

theorem C7_witness :
    initObj .apiHostRef .none_ [("bogus", .int 1)] = .error (.unknownAttr "bogus") ∧
    fromJsonDict .apiHostRef (.dict [("bogus", .int 1)]) .none_ =
      .error (.unknownAttr "bogus") ∧
    setAttrPy .apiHostRef [] "bogus" (.int 1) = .error (.unknownAttr "bogus") := by
  have h := C7_unknown_rejection .apiHostRef "bogus" rfl
  exact ⟨h.1 .none_ (.int 1), h.2.1 .none_ (.int 1), h.2.2.1 [] (.int 1) rfl⟩

/-- Claim C9: a list value under a list-of-elements descriptor is encoded via
the `ApiList` envelope whose elements are encoded by `x.to_json_dict()` with
no argument — i.e. with `preserve_ro=False` — regardless of the outer
`preserve_ro` flag; consequently read-only schema attributes never occur in
the encoding of an element. -/
theorem C9_nested_elements_drop_readonly (a : Attr) (h : a.is_api_list = true)
    (preserveRo : Bool) (xs : List Value) :
    (attrToJson a preserveRo (.list xs) =
      match apiListEncodeElems xs with
      | .ok ys => .ok (.dict [("items", .list ys)])
      | .error e => .error e) ∧
    (∀ c attrs, apiListElemToJson (.obj c attrs) = toJsonObj false c attrs) ∧
    (∀ c attrs js name a2, toJsonFields false c attrs = .ok js →
      lookupA (schema c) name = some (some a2) → a2.rw = false →
      lookupA js name = none) := by
  refine ⟨by simp [attrToJson, h], fun c attrs => rfl, fun c attrs => ?_⟩
  induction attrs with
  | nil =>
      intro js name a2 hjs hs hro
      rw [toJsonFields] at hjs
      cases hjs
      rfl
  | cons p rest ih =>
      obtain ⟨k0, v0⟩ := p
      intro js name a2 hjs hs hro
      rw [toJsonFields] at hjs
      rcases hlk : lookupA (schema c) k0 with _ | oa0
      · rw [hlk] at hjs
        exact ih js name a2 hjs hs hro
      · rw [hlk] at hjs
        rcases oa0 with _ | a0
        · simp only [Bool.not_false, Bool.true_and, Bool.false_eq_true,
            if_false] at hjs
          rcases hrest : toJsonFields false c rest with e2 | js2 <;>
            simp only [hrest] at hjs
          · cases hjs
          · cases hjs
            have hk0 : (k0 == name) = false := by
              by_contra hb
              have hk : k0 = name := by
                have := Bool.of_not_eq_false hb
                simpa using this
              subst hk
              rw [hlk] at hs
              cases hs
            simp [lookupA, hk0]
            exact ih js2 name a2 hrest hs hro
        · cases hro0 : a0.rw
          · have hskip : (!false && !a0.rw) = true := by simp [hro0]
            simp only [hro0, Bool.not_false, Bool.true_and, if_true] at hjs
            exact ih js name a2 hjs hs hro
          · simp only [hro0, Bool.not_true, Bool.not_false, Bool.true_and,
              Bool.false_eq_true, if_false] at hjs
            have hk0 : (k0 == name) = false := by
              by_contra hb
              have hk : k0 = name := by
                have := Bool.of_not_eq_false hb
                simpa using this
              subst hk
              rw [hlk] at hs
              cases hs
              rw [hro0] at hro
              cases hro
            rcases henc : attrToJson a0 false v0 with e2 | jv0 <;>
              simp only [henc] at hjs
            · by_cases hat : e2.isAttributeError
              · rw [if_pos hat] at hjs
                exact ih js name a2 hjs hs hro
              · rw [if_neg hat] at hjs
                cases hjs
            · rcases hrest : toJsonFields false c rest with e2 | js2 <;>
                simp only [hrest] at hjs
              · cases hjs
              · cases hjs
                simp [lookupA, hk0]
                exact ih js2 name a2 hrest hs hro

theorem C9_witness :
    attrToJson (ROAttr (.cls .apiConfig) true) true
      (.list [.obj .apiConfig [("required", .str "y"), ("name", .str "n")]]) =
      .ok (.dict [("items", .list [.dict [("name", .str "n")]])]) ∧
    lookupA [("name", Value.str "n")] "required" = none := by
  have h := C9_nested_elements_drop_readonly (ROAttr (.cls .apiConfig) true) rfl true
    [.obj .apiConfig [("required", .str "y"), ("name", .str "n")]]
  exact ⟨h.1.trans (by rfl),
    h.2.2 .apiConfig [("required", .str "y"), ("name", .str "n")]
      [("name", .str "n")] "required" (ROAttr) rfl rfl rfl⟩

/-- What `_update` effectively copies for a schema name `n`: the value
present on the other instance, provided `setattr` accepts it (whitelisted, or
in the schema and not read-only).  When `setattr` rejects it, the caught
`AttributeError` makes `_update` skip the attribute. -/
def copies (c : ClassName) (other : List (String × Value)) (n : String) :
    Option Value :=
  match lookupA other n with
  | none => none
  | some v =>
      if WHITELIST.contains n then some v
      else
        match checkAttr c n false with
        | .ok _ => some v
        | .error _ => none

theorem checkAttr_error_isAttributeError (c : ClassName) (n : String)
    (allowRo : Bool) (e : PyErr) (h : checkAttr c n allowRo = .error e) :
    e.isAttributeError = true := by
  rw [checkAttr] at h
  rcases hlk : lookupA (schema c) n with _ | oa <;> simp only [hlk] at h
  · cases h
    rfl
  · split at h
    · split at h
      · cases h
        rfl
      · cases h
    · cases h

theorem updateGo_spec (c : ClassName) (other : List (String × Value)) :
    ∀ (ns : List String) (acc : List (String × Value)),
      ∃ r, updateGo c other ns acc = .ok r ∧
        ∀ n, lookupA r n =
          ((if n ∈ ns then copies c other n else none).or (lookupA acc n)) := by
  intro ns
  induction ns with
  | nil =>
      intro acc
      exact ⟨acc, rfl, fun n => by simp⟩
  | cons m rest ih =>
      intro acc
      rw [updateGo]
      rcases hlm : lookupA other m with _ | v <;> simp only [hlm]
      · obtain ⟨r, hr, hl⟩ := ih acc
        refine ⟨r, hr, fun n => ?_⟩
        rw [hl n]
        have hcm : copies c other m = none := by simp [copies, hlm]
        by_cases hnm : n = m
        · subst hnm
          simp [hcm]
        · simp [List.mem_cons, hnm]
      · have hcm : copies c other m =
            (if WHITELIST.contains m then some v
             else match checkAttr c m false with
               | .ok _ => some v
               | .error _ => none) := by
          simp [copies, hlm]
        by_cases hw : WHITELIST.contains m
        · have hsp : setAttrPy c acc m v = .ok (setA acc m v) := by
            rw [setAttrPy, if_pos hw]
          simp only [hsp]
          have hcm2 : copies c other m = some v := by
            rw [hcm, if_pos hw]
          obtain ⟨r, hr, hl⟩ := ih (setA acc m v)
          refine ⟨r, hr, fun n => ?_⟩
          rw [hl n]
          by_cases hnm : n = m
          · subst hnm
            by_cases hnr : n ∈ rest
            · simp [hnr, hcm2]
            · simp [hnr, hcm2, lookupA_setA_self]
          · simp [List.mem_cons, hnm, lookupA_setA_ne acc m n v (Ne.symm hnm)]
        · rcases hck : checkAttr c m false with e | oa
          · have hsp : setAttrPy c acc m v = .error e := by
              rw [setAttrPy, if_neg hw, hck]
            have hae : e.isAttributeError = true :=
              checkAttr_error_isAttributeError c m false e hck
            simp only [hsp, hae, if_true]
            obtain ⟨r, hr, hl⟩ := ih acc
            refine ⟨r, hr, fun n => ?_⟩
            rw [hl n]
            have hcm2 : copies c other m = none := by
              rw [hcm, if_neg hw, hck]
            by_cases hnm : n = m
            · subst hnm
              simp [hcm2]
            · simp [List.mem_cons, hnm]
          · have hsp : setAttrPy c acc m v = .ok (setA acc m v) := by
              rw [setAttrPy, if_neg hw, hck]
            simp only [hsp]
            obtain ⟨r, hr, hl⟩ := ih (setA acc m v)
            refine ⟨r, hr, fun n => ?_⟩
            rw [hl n]
            have hcm2 : copies c other m = some v := by
              rw [hcm, if_neg hw, hck]
            by_cases hnm : n = m
            · subst hnm
              by_cases hnr : n ∈ rest
              · simp [hnr, hcm2]
              · simp [hnr, hcm2, lookupA_setA_self]
            · simp [List.mem_cons, hnm, lookupA_setA_ne acc m n v (Ne.symm hnm)]

/-- Claim C3 counterexample, in two parts.  (1) An attribute present on the
other instance is *not* copied when it is read-only: `setattr`'s read-only
`AttributeError` is caught and the attribute skipped, so `required` stays
absent on self.  (2) The type check is the reverse of the claim: with self a
plain `BaseApiObject` and other an `ApiConfig` — so other *is* an instance
of self's type, and the claim demands success — the code raises
`ValueError`. -/
theorem C3_counterexample :
    (updateObj .apiConfig (baseAttrs .apiConfig .none_) .apiConfig
       [("required", .str "yes")] = .ok (baseAttrs .apiConfig .none_) ∧
     lookupA (baseAttrs .apiConfig .none_) "required" = none) ∧
    (updateObj .baseApiObject [] .apiConfig [] = .error .valueError ∧
     isInstanceOf .apiConfig .baseApiObject = true) :=
  ⟨⟨rfl, rfl⟩, ⟨rfl, rfl⟩⟩

/-- Claim C3 (amended): `_update` fails with `ValueError` (the spec's
`TypeMismatchError`) exactly when *self* is not an instance of the *other*
instance's class (the reverse direction of the claim); on success it copies,
for each name in self's schema, the value present on the other instance
*provided* `setattr` accepts it — read-only attributes present on the other
instance are silently skipped, because the read-only `AttributeError` is
swallowed. -/
theorem C3_copy_semantics (selfC otherC : ClassName)
    (selfAttrs otherAttrs : List (String × Value)) :
    (isInstanceOf selfC otherC = false →
      updateObj selfC selfAttrs otherC otherAttrs = .error .valueError) ∧
    (isInstanceOf selfC otherC = true →
      ∃ r, updateObj selfC selfAttrs otherC otherAttrs = .ok r ∧
        ∀ n, lookupA r n =
          ((if n ∈ (schema selfC).map Prod.fst then copies selfC otherAttrs n
            else none).or (lookupA selfAttrs n))) := by
  constructor
  · intro h
    simp [updateObj, h]
  · intro h
    rw [updateObj, h]
    simpa using updateGo_spec selfC otherAttrs ((schema selfC).map Prod.fst) selfAttrs

theorem C3_witness :
    ∃ r, updateObj .apiConfig (baseAttrs .apiConfig .none_) .apiConfig
        [("name", .str "x")] = .ok r ∧ lookupA r "name" = some (.str "x") := by
  obtain ⟨r, hr, hl⟩ := (C3_copy_semantics .apiConfig .apiConfig
    (baseAttrs .apiConfig .none_) [("name", .str "x")]).2 rfl
  exact ⟨r, hr, (hl "name").trans (by rfl)⟩

/-- Does a schema entry describe an attribute that `__init__` initializes
(descriptor `None`, or `rw=True`)? -/
def isWritableEntry : Option Attr → Bool
  | none => true
  | some a => a.rw

/-- Every writable schema attribute carries a value on the instance. -/
def writablesPresent (c : ClassName) (ats : List (String × Value)) : Prop :=
  ∀ n oa, lookupA (schema c) n = some oa → isWritableEntry oa = true →
    (lookupA ats n).isSome = true

theorem lookupA_writableInit (c : ClassName) (n : String) (oa : Option Attr)
    (h : lookupA (schema c) n = some oa) (hw : isWritableEntry oa = true) :
    lookupA (writableInit c) n = some .none_ := by
  rw [writableInit]
  revert h
  induction schema c with
  | nil => intro h; cases h
  | cons p rest ih =>
      obtain ⟨k0, oa0⟩ := p
      intro h
      rw [lookupA] at h
      by_cases hk : k0 == n
      · rw [if_pos hk] at h
        injection h with h2
        rw [h2]
        rcases oa with _ | a0
        · simp [List.filterMap_cons, lookupA, hk]
        · rw [isWritableEntry] at hw
          simp [List.filterMap_cons, hw, lookupA, hk]
      · rw [if_neg (by simpa using hk)] at h
        rcases hoa : oa0 with _ | a0
        · simp only [List.filterMap_cons]
          rw [lookupA, if_neg (by simpa using hk)]
          exact ih h
        · rcases hrw : a0.rw
          · simp only [List.filterMap_cons, hrw, Bool.false_eq_true, if_false]
            exact ih h
          · simp only [List.filterMap_cons, hrw, if_true]
            rw [lookupA, if_neg (by simpa using hk)]
            exact ih h

theorem baseAttrs_writable_present (c : ClassName) (root : Value) (n : String)
    (oa : Option Attr) (h : lookupA (schema c) n = some oa)
    (hw : isWritableEntry oa = true) :
    lookupA (baseAttrs c root) n = some .none_ := by
  rw [baseAttrs, lookupA]
  have hne : ("_resource_root" == n) = false := by
    by_contra hb
    have : "_resource_root" = n := by
      have := Bool.of_not_eq_false hb
      simpa using this
    subst this
    rw [schema_no_resource_root] at h
    cases h
  rw [if_neg (by simp [hne])]
  exact lookupA_writableInit c n oa h hw

theorem setAttrsRaw_preserves_isSome (c : ClassName) (allowRo : Bool) :
    ∀ (kwargs acc ats2 : List (String × Value)) (n : String),
      setAttrsRaw c allowRo kwargs acc = .ok ats2 →
      (lookupA acc n).isSome = true → (lookupA ats2 n).isSome = true := by
  intro kwargs
  induction kwargs with
  | nil =>
      intro acc ats2 n h hs
      rw [setAttrsRaw] at h
      cases h
      exact hs
  | cons p rest ih =>
      obtain ⟨k0, v0⟩ := p
      intro acc ats2 n h hs
      rw [setAttrsRaw] at h
      rcases hck : checkAttr c k0 allowRo with e | oa <;> simp only [hck] at h
      · cases h
      · exact ih (setA acc k0 v0) ats2 n h (lookupA_isSome_setA acc k0 n v0 hs)

theorem setAttrsDecode_preserves_isSome (c : ClassName) (root : Value) :
    ∀ (fields acc ats2 : List (String × Value)) (n : String),
      setAttrsDecode c root fields acc = .ok ats2 →
      (lookupA acc n).isSome = true → (lookupA ats2 n).isSome = true := by
  intro fields
  induction fields with
  | nil =>
      intro acc ats2 n h hs
      rw [setAttrsDecode] at h
      cases h
      exact hs
  | cons p rest ih =>
      obtain ⟨k0, v0⟩ := p
      intro acc ats2 n h hs
      rw [setAttrsDecode] at h
      rcases hck : checkAttr c k0 true with e | oa <;> simp only [hck] at h
      · cases h
      · rcases oa with _ | a0
        · exact ih (setA acc k0 v0) ats2 n h (lookupA_isSome_setA acc k0 n v0 hs)
        · rcases hdec : attrFromJson a0 root v0 with e | v2 <;> simp only [hdec] at h
          · cases h
          · exact ih (setA acc k0 v2) ats2 n h (lookupA_isSome_setA acc k0 n v2 hs)

/-- Claim C10: every instance carries a value for every writable schema
attribute.  Construction initializes all of them to `None` before applying
the supplied attributes; `__setattr__`, `_update` and decoding never remove
them; and encoding with `preserve_ro=False` emits a key for every writable
attribute present (with the value its descriptor encodes — `None` for the
never-supplied ones). -/
theorem C10_writable_always_present (c : ClassName) (root : Value) :
    (∀ kwargs ats, initObj c root kwargs = .ok (.obj c ats) → writablesPresent c ats) ∧
    (∀ ats name v ats2, writablesPresent c ats → setAttrPy c ats name v = .ok ats2 →
      writablesPresent c ats2) ∧
    (∀ ats otherC otherAttrs ats2, writablesPresent c ats →
      updateObj c ats otherC otherAttrs = .ok ats2 → writablesPresent c ats2) ∧
    (∀ data ats, fromJsonDict c data root = .ok (.obj c ats) → writablesPresent c ats) ∧
    (∀ a2, attrToJson a2 false Value.none_ = .ok Value.none_) ∧
    (∀ ats js n oa v jv, toJsonFields false c ats = .ok js →
      lookupA (schema c) n = some oa → isWritableEntry oa = true →
      lookupA ats n = some v →
      (match oa with | some a2 => attrToJson a2 false v | none => .ok v) = .ok jv →
      lookupA js n = some jv) := by
  refine ⟨?_, ?_, ?_, ?_, fun a2 => rfl, ?_⟩
  · intro kwargs ats h n oa hso hw
    rw [initObj] at h
    rcases hsr : setAttrsRaw c false kwargs (baseAttrs c root) with e | ats0 <;>
      simp only [hsr] at h
    · cases h
    · cases h
      exact setAttrsRaw_preserves_isSome c false kwargs (baseAttrs c root) ats n hsr
        (by rw [baseAttrs_writable_present c root n oa hso hw]; rfl)
  · intro ats name v ats2 hp h n oa hso hw
    rw [setAttrPy] at h
    by_cases hwl : WHITELIST.contains name
    · rw [if_pos hwl] at h
      cases h
      exact lookupA_isSome_setA ats name n v (hp n oa hso hw)
    · rw [if_neg hwl] at h
      rcases hck : checkAttr c name false with e | oa2 <;> simp only [hck] at h
      · cases h
      · cases h
        exact lookupA_isSome_setA ats name n v (hp n oa hso hw)
  · intro ats otherC otherAttrs ats2 hp h n oa hso hw
    rw [updateObj] at h
    by_cases hio : isInstanceOf c otherC
    · rw [if_neg (by simp [hio])] at h
      obtain ⟨r, hr, hl⟩ := updateGo_spec c otherAttrs ((schema c).map Prod.fst) ats
      rw [hr] at h
      cases h
      rw [hl n]
      rcases (if n ∈ (schema c).map Prod.fst then copies c otherAttrs n else none) with
        _ | w
      · simpa using hp n oa hso hw
      · rfl
    · rw [if_pos (by simp [hio])] at h
      cases h
  · intro data ats h n oa hso hw
    rcases data with _ | b | s | i | d | xs | fields | ⟨c2, ats2⟩ | xs
    case dict =>
      rw [fromJsonDict] at h
      rcases hsd : setAttrsDecode c root fields (baseAttrs c root) with e | ats0 <;>
        simp only [hsd] at h
      · cases h
      · cases h
        exact setAttrsDecode_preserves_isSome c root fields (baseAttrs c root) ats n hsd
          (by rw [baseAttrs_writable_present c root n oa hso hw]; rfl)
    all_goals simp [fromJsonDict] at h
  · intro ats
    induction ats with
    | nil =>
        intro js n oa v jv hjs hso hw hl henc
        cases hl
    | cons p rest ih =>
        obtain ⟨k0, v0⟩ := p
        intro js n oa v jv hjs hso hw hl henc
        rw [toJsonFields] at hjs
        rw [lookupA] at hl
        by_cases hk : k0 == n
        · rw [if_pos hk] at hl
          cases hl
          have hkn : k0 = n := by simpa using hk
          subst hkn
          rw [hso] at hjs
          rcases oa with _ | a2
          · simp only [Bool.not_false, Bool.true_and, Bool.false_eq_true,
              if_false] at hjs
            rcases hrest : toJsonFields false c rest with e | js2 <;>
              simp only [hrest] at hjs
            · cases hjs
            · cases hjs
              cases henc
              simp [lookupA, hk]
          · rw [isWritableEntry] at hw
            simp only [hw, Bool.not_true, Bool.and_false, Bool.not_false,
              Bool.true_and, Bool.false_eq_true, if_false] at hjs
            simp only at henc
            rw [henc] at hjs
            rcases hrest : toJsonFields false c rest with e | js2 <;>
              simp only [hrest] at hjs
            · cases hjs
            · cases hjs
              simp [lookupA, hk]
        · rw [if_neg (by simpa using hk)] at hl
          rcases hlk0 : lookupA (schema c) k0 with _ | oa0 <;> simp only [hlk0] at hjs
          · exact ih js n oa v jv hjs hso hw hl henc
          · rcases oa0 with _ | a0
            · simp only [Bool.not_false, Bool.true_and, Bool.false_eq_true,
                if_false] at hjs
              rcases hrest : toJsonFields false c rest with e | js2 <;>
                simp only [hrest] at hjs
              · cases hjs
              · cases hjs
                rw [lookupA, if_neg (by simpa using hk)]
                exact ih js2 n oa v jv hrest hso hw hl henc
            · rcases hrw : a0.rw
              · simp only [hrw, Bool.not_false, Bool.true_and, if_true] at hjs
                exact ih js n oa v jv hjs hso hw hl henc
              · simp only [hrw, Bool.not_true, Bool.not_false, Bool.true_and,
                  Bool.false_eq_true, if_false] at hjs
                rcases henc0 : attrToJson a0 false v0 with e | jv0 <;>
                  simp only [henc0] at hjs
                · by_cases hat : e.isAttributeError
                  · rw [if_pos hat] at hjs
                    exact ih js n oa v jv hjs hso hw hl henc
                  · rw [if_neg hat] at hjs
                    cases hjs
                · rcases hrest : toJsonFields false c rest with e | js2 <;>
                    simp only [hrest] at hjs
                  · cases hjs
                  · cases hjs
                    rw [lookupA, if_neg (by simpa using hk)]
                    exact ih js2 n oa v jv hrest hso hw hl henc

theorem C10_witness :
    writablesPresent .apiHiveTable
      [("_resource_root", .none_), ("database", .str "db"), ("tableName", .none_)] ∧
    lookupA [("database", Value.str "db"), ("tableName", Value.none_)] "tableName" =
      some Value.none_ := by
  have h := C10_writable_always_present .apiHiveTable .none_
  refine ⟨h.1 [("database", .str "db")]
      [("_resource_root", .none_), ("database", .str "db"), ("tableName", .none_)]
      rfl, ?_⟩
  exact h.2.2.2.2.2
    [("_resource_root", .none_), ("database", .str "db"), ("tableName", .none_)]
    [("database", .str "db"), ("tableName", .none_)] "tableName" none .none_ .none_
    rfl rfl rfl rfl rfl

theorem liveRoot_ok (attrs : List (String × Value)) (root : Value)
    (h : lookupA attrs "_resource_root" = some root) (hl : root ≠ .none_) :
    liveRoot attrs = .ok root := by
  rcases root with _ | b | s | i | d | xs | fields | ⟨c2, ats2⟩ | xs
  case none_ => exact absurd rfl hl
  all_goals rw [liveRoot, h]

theorem waitLoopAux_spec (env : CmdEnv) (path : String) (root : Value) (dl : Nat)
    (snap : Nat → Value)
    (hdur : ∀ k, 1 ≤ env.dur k)
    (hsnap : ∀ k, fromJsonDict .apiCommand (env.get k path) root = .ok (snap k))
    (hact : ∀ k, ∃ av, getAttrPy (snap k) "active" = .ok av) :
    ∀ (fuel k now slept : Nat) (calls : List (String × String)), dl ≤ now + fuel →
      ∃ r : WaitRes,
        waitLoopAux env path root (some dl) (fuel + 1) k now slept calls =
          .ok (some r) ∧
        r.res = snap (r.fetches - 1) ∧ k < r.fetches ∧
        (∀ av, getAttrPy r.res "active" = .ok av → truthy av = true →
          dl < r.endTime) := by
  intro fuel
  induction fuel with
  | zero =>
      intro k now slept calls hfuel
      rw [waitLoopAux]
      obtain ⟨av, hav⟩ := hact k
      simp only [hsnap k, hav]
      have hlt : dl < now + env.dur k := by
        have := hdur k
        omega
      cases htr : truthy av
      · simp only [Bool.not_false, if_true]
        refine ⟨⟨snap k, calls ++ [("GET", path)], k + 1, now + env.dur k, slept⟩,
          rfl, by simp, Nat.lt_succ_self k, ?_⟩
        intro av2 hav2 htr2
        rw [hav] at hav2
        cases hav2
        rw [htr] at htr2
        cases htr2
      · simp only [Bool.not_true, Bool.false_eq_true, if_false]
        rw [if_pos hlt]
        exact ⟨⟨snap k, calls ++ [("GET", path)], k + 1, now + env.dur k, slept⟩,
          rfl, by simp, Nat.lt_succ_self k, fun av2 hav2 htr2 => hlt⟩
  | succ f ih =>
      intro k now slept calls hfuel
      rw [waitLoopAux]
      obtain ⟨av, hav⟩ := hact k
      simp only [hsnap k, hav]
      cases htr : truthy av
      · simp only [Bool.not_false, if_true]
        refine ⟨⟨snap k, calls ++ [("GET", path)], k + 1, now + env.dur k, slept⟩,
          rfl, by simp, Nat.lt_succ_self k, ?_⟩
        intro av2 hav2 htr2
        rw [hav] at hav2
        cases hav2
        rw [htr] at htr2
        cases htr2
      · simp only [Bool.not_true, Bool.false_eq_true, if_false]
        by_cases hlt : dl < now + env.dur k
        · rw [if_pos hlt]
          exact ⟨⟨snap k, calls ++ [("GET", path)], k + 1, now + env.dur k, slept⟩,
            rfl, by simp, Nat.lt_succ_self k, fun av2 hav2 htr2 => hlt⟩
        · rw [if_neg hlt]
          have hstep : dl ≤ (now + env.dur k + min 5 (dl - (now + env.dur k))) + f := by
            have := hdur k
            omega
          obtain ⟨r, hr, hres, hk, hdl⟩ := ih (k + 1)
            (now + env.dur k + min 5 (dl - (now + env.dur k)))
            (slept + min 5 (dl - (now + env.dur k)))
            (calls ++ [("GET", path)]) hstep
          exact ⟨r, hr, hres, by omega, hdl⟩

/-- Claim C4: `wait` never signals timeout as an error.  With a supplied
timeout, once the deadline passes `wait` returns the most recently fetched
snapshot (`ok`, never an exception), even if that snapshot is still active —
timeout is observable only through the `active` flag; and `wait(timeout=0)`
returns the very first fetched snapshot immediately, with a single GET and
zero time slept. -/
theorem C4_wait_timeout_semantics (env : CmdEnv) (attrs : List (String × Value))
    (i : Int) (hid : lookupA attrs "id" = some (.int i)) (hni : i ≠ -1)
    (root : Value) (hroot : lookupA attrs "_resource_root" = some root)
    (hlive : root ≠ .none_)
    (snap : Nat → Value)
    (hdur : ∀ k, 1 ≤ env.dur k)
    (hsnap : ∀ k,
      fromJsonDict .apiCommand (env.get k ("/commands/" ++ toString i)) root =
        .ok (snap k))
    (hact : ∀ k, ∃ av, getAttrPy (snap k) "active" = .ok av) :
    (∀ timeout t0, ∃ r : WaitRes,
      waitCmd env attrs (some timeout) t0 (timeout + 1) = .ok (some r) ∧
      r.res = snap (r.fetches - 1) ∧
      (∀ av, getAttrPy r.res "active" = .ok av → truthy av = true →
        t0 + timeout < r.endTime)) ∧
    (∀ t0, waitCmd env attrs (some 0) t0 1 =
      .ok (some ⟨snap 0, [("GET", "/commands/" ++ toString i)], 1,
        t0 + env.dur 0, 0⟩)) := by
  have hsync : isSyncId attrs = .ok false := by
    have hne : (i == SYNCHRONOUS_COMMAND_ID) = false := by
      rw [SYNCHRONOUS_COMMAND_ID]
      exact beq_eq_false_iff_ne.mpr hni
    rw [isSyncId]
    simp only [hid, hne]
  have hpath : cmdPath attrs = .ok ("/commands/" ++ toString i) := by
    rw [cmdPath, hid]
  have hcmd : ∀ timeout t0 fuel,
      waitCmd env attrs (some timeout) t0 fuel =
        waitLoopAux env ("/commands/" ++ toString i) root (some (t0 + timeout))
          fuel 0 t0 0 [] := by
    intro timeout t0 fuel
    rw [waitCmd]
    simp only [hsync, liveRoot_ok attrs root hroot hlive, hpath, Option.map]
  constructor
  · intro timeout t0
    rw [hcmd timeout t0 (timeout + 1)]
    obtain ⟨r, hr, hres, hk, hdl⟩ := waitLoopAux_spec env _ root (t0 + timeout)
      snap hdur hsnap hact timeout 0 t0 0 [] (by omega)
    exact ⟨r, hr, hres, fun av hav htr => hdl av hav htr⟩
  · intro t0
    rw [hcmd 0 t0 1]
    rw [waitLoopAux]
    obtain ⟨av, hav⟩ := hact 0
    simp only [hsnap 0, hav]
    have hlt : t0 + 0 < t0 + env.dur 0 := by
      have := hdur 0
      omega
    cases htr : truthy av
    · simp only [Bool.not_false, if_true]
      rfl
    · simp only [Bool.not_true, Bool.false_eq_true, if_false]
      rw [if_pos hlt]
      rfl

theorem C4_witness :
    (∃ r : WaitRes,
      waitCmd ⟨fun _ _ => .dict [("id", .int 5), ("active", .bool true)],
        fun _ => .none_, fun _ => 1⟩
        [("id", .int 5), ("_resource_root", .int 9)] (some 3) 0 4 = .ok (some r) ∧
      r.res = .obj .apiCommand
        [("_resource_root", .int 9), ("id", .int 5), ("active", .bool true)]) ∧
    waitCmd ⟨fun _ _ => .dict [("id", .int 5), ("active", .bool true)],
      fun _ => .none_, fun _ => 1⟩
      [("id", .int 5), ("_resource_root", .int 9)] (some 0) 0 1 =
      .ok (some ⟨.obj .apiCommand
        [("_resource_root", .int 9), ("id", .int 5), ("active", .bool true)],
        [("GET", "/commands/5")], 1, 1, 0⟩) := by
  have h := C4_wait_timeout_semantics
    ⟨fun _ _ => .dict [("id", .int 5), ("active", .bool true)],
      fun _ => .none_, fun _ => 1⟩
    [("id", .int 5), ("_resource_root", .int 9)] 5 rfl (by decide) (.int 9) rfl
    (fun hc => Value.noConfusion hc)
    (fun _ => .obj .apiCommand
      [("_resource_root", .int 9), ("id", .int 5), ("active", .bool true)])
    (fun _ => Nat.le_refl 1) (fun _ => rfl) (fun _ => ⟨.bool true, rfl⟩)
  obtain ⟨r, hr, hres, _⟩ := h.1 3 0
  exact ⟨⟨r, hr, hres⟩, h.2 0⟩

/-- Claim C8 counterexample: the string `2024-01-02T03:04:05.5Z` does *not*
match the pattern `YYYY-MM-DDTHH:MM:SS.ffffffZ` (its fractional part has one
digit, not six), yet decoding it through a temporal descriptor succeeds —
`strptime`'s `%f` accepts one to six digits — yielding 500000 microseconds
instead of failing. -/
theorem C8_counterexample :
    matchesPattern "2024-01-02T03:04:05.5Z" = false ∧
    attrFromJson { atype := .dt } .none_ (.str "2024-01-02T03:04:05.5Z") =
      .ok (.dt ⟨2024, 1, 2, 3, 4, 5, 500000⟩) :=
  ⟨rfl, rfl⟩

/-- Claim C8 (amended): encoding a valid timestamp (year 1900–9999, fields
in `datetime` range) through a temporal descriptor produces a string
matching exactly `YYYY-MM-DDTHH:MM:SS.ffffffZ`, and decoding that string
recovers the timestamp exactly at microsecond granularity; decoding fails
with `MalformedTimestampError` (`ValueError`) exactly on the strings the
underlying `strptime` rejects — but `strptime` is lenient and also accepts
some non-matching strings (unpadded fields, short fractions). -/
theorem C8_timestamp_roundtrip (a : Attr) (ha : a.atype = .dt)
    (preserveRo : Bool) (root : Value) (d : DateTime) (hd : ValidDT d) :
    attrToJson a preserveRo (.dt d) = .ok (.str (formatDate d)) ∧
    matchesPattern (formatDate d) = true ∧
    attrFromJson a root (.str (formatDate d)) = .ok (.dt d) ∧
    (∀ s, parseDate s = none → attrFromJson a root (.str s) = .error .valueError) := by
  refine ⟨?_, matchesPattern_formatDate hd, ?_, fun s hs => ?_⟩
  · obtain ⟨hy1, _⟩ := hd
    simp [attrToJson, hy1]
  · have hp : parseDate (formatDate d) = some d := parseChars_fmtChars hd
    simp [attrFromJson, ha, hp]
  · simp [attrFromJson, ha, hs]

theorem C8_witness :
    attrToJson (ROAttr .dt) true (.dt ⟨2024, 1, 2, 3, 4, 5, 6⟩) =
      .ok (.str "2024-01-02T03:04:05.000006Z") ∧
    matchesPattern "2024-01-02T03:04:05.000006Z" = true ∧
    attrFromJson (ROAttr .dt) .none_ (.str "2024-01-02T03:04:05.000006Z") =
      .ok (.dt ⟨2024, 1, 2, 3, 4, 5, 6⟩) ∧
    attrFromJson (ROAttr .dt) .none_ (.str "garbage") = .error .valueError := by
  have h := C8_timestamp_roundtrip (ROAttr .dt) rfl true .none_
    ⟨2024, 1, 2, 3, 4, 5, 6⟩ (by decide)
  exact ⟨h.1.trans (by rfl), h.2.1.symm.trans (by rfl) |>.symm,
    (by rfl : attrFromJson (ROAttr .dt) .none_ (.str "2024-01-02T03:04:05.000006Z") =
      attrFromJson (ROAttr .dt) .none_ (.str (formatDate ⟨2024, 1, 2, 3, 4, 5, 6⟩))).trans
      h.2.2.1,
    h.2.2.2 "garbage" rfl⟩

/-- Claim C1 counterexample input: an `ApiCommand` JSON with a populated
`children` envelope.  Decoding it yields an instance whose `children` value
is an `ApiList`; re-encoding that instance with `preserve_ro=True` calls
`children.to_json_dict(preserve_ro)` — but `ApiList.to_json_dict` takes no
argument, so encoding raises `TypeError` and the round trip of the claim
cannot even produce a payload. -/
theorem C1_counterexample :
    fromJsonDict .apiCommand
      (.dict [("id", .int 5),
              ("children", .dict [("items", .list [.dict [("id", .int 6)]])])])
      (.int 0) =
      .ok (.obj .apiCommand
        [("_resource_root", .int 0), ("id", .int 5),
         ("children", .apiList [.obj .apiCommand
           [("_resource_root", .int 0), ("id", .int 6)]])]) ∧
    toJsonObj true .apiCommand
      [("_resource_root", .int 0), ("id", .int 5),
       ("children", .apiList [.obj .apiCommand
         [("_resource_root", .int 0), ("id", .int 6)]])] =
      .error .typeError :=
  ⟨rfl, rfl⟩

/-- The writable attribute names of a class, in schema order. -/
def writableKeys (c : ClassName) : List String := (writableInit c).map Prod.fst

/-- A descriptor under which a value passes through both codecs raw: no
descriptor at all, or a typeless non-list descriptor. -/
def plainOk : Option Attr → Prop
  | none => True
  | some a => a.atype = .none_ ∧ a.is_api_list = false

mutual

/-- Decode-shaped values: the values `v` under descriptor `oa` for which
`to_json` followed by `from_json` reproduces `v` exactly.  Under no
descriptor (`oa = none`) `to_json_dict`/`_set_attrs` store the value raw in
both directions, so anything qualifies.  Under a descriptor: scalars need a
typeless non-list descriptor; timestamps need a temporal descriptor and the
`strftime`-supported range; dicts pass through raw under a typeless non-list
descriptor, and an *empty* config mapping round-trips under a config
descriptor; instances need the matching class descriptor (not `ApiConfig`),
with recursively good, canonically-ordered attributes; plain lists recurse
element-wise; populated `ApiList` values never encode (`TypeError`). -/
def goodVal (root : Value) (oa : Option Attr) : Value → Prop
  | .none_ => True
  | .bool _ => plainOk oa
  | .str _ => plainOk oa
  | .int _ => plainOk oa
  | .dt d =>
      match oa with
      | none => True
      | some a => a.atype = .dt ∧ ValidDT d
  | .dict kvs =>
      match oa with
      | none => True
      | some a => (a.atype = .none_ ∧ a.is_api_list = false) ∨
          (a.atype = .cls .apiConfig ∧ kvs = [])
  | .obj c2 ats =>
      match oa with
      | none => True
      | some a => a.atype = .cls c2 ∧ c2 ≠ .apiConfig ∧ a.is_api_list = false ∧
          goodObjAttrs root c2 ats
  | .list vs =>
      match oa with
      | none => True
      | some a => a.atype ≠ .dt ∧ a.atype ≠ .cls .apiConfig ∧
          a.is_api_list = false ∧ goodList root a vs
  | .apiList _ => oa = none
termination_by structural v => v

/-- Element-wise goodness of a plain list value. -/
def goodList (root : Value) (a : Attr) : List Value → Prop
  | [] => True
  | v :: rest => goodVal root (some a) v ∧ goodList root a rest
termination_by structural vs => vs

/-- Canonically-shaped instance `__dict__`: the `_resource_root` slot first
(holding exactly the decode root), then every writable attribute in schema
order, then a duplicate-free block of read-only schema attributes — the
shape `from_json_dict` produces — with every value good for its
descriptor. -/
def goodObjAttrs (root : Value) (c : ClassName) : List (String × Value) → Prop
  | [] => False
  | (k, rv) :: rest => k = "_resource_root" ∧ rv = root ∧
      goodTail root c (writableKeys c) rest
termination_by structural ats => ats

/-- The tail of a canonical `__dict__`: first the writable attributes
aligned with `wkeys` in order, then read-only schema attributes with
duplicate-free keys. -/
def goodTail (root : Value) (c : ClassName) :
    List String → List (String × Value) → Prop
  | _ :: _, [] => False
  | [], [] => True
  | wk :: wrest, (n, v) :: rest =>
      n = wk ∧
      (match lookupA (schema c) n with
       | some oa => goodVal root oa v
       | none => False) ∧
      goodTail root c wrest rest
  | [], (n, v) :: rest =>
      (match lookupA (schema c) n with
       | some (some a) => a.rw = false ∧ goodVal root (some a) v
       | _ => False) ∧
      lookupA rest n = none ∧ goodTail root c [] rest
termination_by structural _ fs => fs

end

theorem schemaKeysNodup (c : ClassName) : ((schema c).map Prod.fst).Nodup := by
  cases c <;> decide

theorem writableKeysNodup (c : ClassName) : (writableKeys c).Nodup := by
  cases c <;> decide

theorem wInit_mem_keys :
    ∀ (l : List (String × Option Attr)) (n : String),
      n ∈ (l.filterMap fun p =>
            match p.2 with
            | none => some (p.1, Value.none_)
            | some a => if a.rw then some (p.1, Value.none_) else none).map
          Prod.fst →
      n ∈ l.map Prod.fst := by
  intro l
  induction l with
  | nil => intro n h; simpa using h
  | cons p rest ih =>
      obtain ⟨k0, oa0⟩ := p
      intro n h
      rcases oa0 with _ | a0
      · rw [List.filterMap_cons] at h
        simp only [List.map_cons, List.mem_cons] at h ⊢
        rcases h with h | h
        · exact Or.inl h
        · exact Or.inr (ih n h)
      · rcases hrw : a0.rw
        · rw [List.filterMap_cons] at h
          simp only [hrw, Bool.false_eq_true, if_false] at h
          simp only [List.map_cons, List.mem_cons]
          exact Or.inr (ih n h)
        · rw [List.filterMap_cons] at h
          simp only [hrw, if_true] at h
          simp only [List.map_cons, List.mem_cons] at h ⊢
          rcases h with h | h
          · exact Or.inl h
          · exact Or.inr (ih n h)

theorem wInit_lookup :
    ∀ (l : List (String × Option Attr)) (n : String),
      (l.map Prod.fst).Nodup →
      n ∈ (l.filterMap fun p =>
            match p.2 with
            | none => some (p.1, Value.none_)
            | some a => if a.rw then some (p.1, Value.none_) else none).map
          Prod.fst →
      ∃ oa, lookupA l n = some oa ∧ isWritableEntry oa = true := by
  intro l
  induction l with
  | nil => intro n _ h; simp at h
  | cons p rest ih =>
      obtain ⟨k0, oa0⟩ := p
      intro n hnd h
      simp only [List.map_cons, List.nodup_cons] at hnd
      by_cases hk : k0 = n
      · subst hk
        refine ⟨oa0, by simp [lookupA], ?_⟩
        rcases oa0 with _ | a0
        · rfl
        · rcases hrw : a0.rw
          · exfalso
            simp only [List.filterMap_cons, hrw, Bool.false_eq_true, if_false] at h
            exact hnd.1 (wInit_mem_keys rest k0 h)
          · rw [isWritableEntry, hrw]
      · have hh : n ∈ (rest.filterMap fun p =>
            match p.2 with
            | none => some (p.1, Value.none_)
            | some a => if a.rw then some (p.1, Value.none_) else none).map
            Prod.fst := by
          rcases oa0 with _ | a0
          · simp only [List.filterMap_cons] at h
            simpa [Ne.symm hk] using h
          · rcases hrw : a0.rw
            · simp only [List.filterMap_cons, hrw, Bool.false_eq_true,
                if_false] at h
              exact h
            · simp only [List.filterMap_cons, hrw, if_true] at h
              simpa [Ne.symm hk] using h
        obtain ⟨oa, hl, hw⟩ := ih n hnd.2 hh
        exact ⟨oa, by simp [lookupA, hk, hl], hw⟩

theorem writableKeys_spec (c : ClassName) (n : String) (h : n ∈ writableKeys c) :
    ∃ oa, lookupA (schema c) n = some oa ∧ isWritableEntry oa = true := by
  rw [writableKeys, writableInit] at h
  exact wInit_lookup (schema c) n (schemaKeysNodup c) h

theorem lookupA_append_of_none {α : Type} (l1 l2 : List (String × α)) (k : String)
    (h : lookupA l1 k = none) : lookupA (l1 ++ l2) k = lookupA l2 k := by
  induction l1 with
  | nil => simp
  | cons p rest ih =>
      obtain ⟨k0, v0⟩ := p
      rw [lookupA] at h
      by_cases hk : k0 == k
      · rw [if_pos hk] at h
        cases h
      · rw [if_neg (by simpa using hk)] at h
        rw [List.cons_append, lookupA, if_neg (by simpa using hk)]
        exact ih h

theorem goodTail_keys (root : Value) (c : ClassName) :
    ∀ (fs : List (String × Value)) (wkeys : List String),
      goodTail root c wkeys fs →
      ∀ q ∈ fs, q.1 ∈ wkeys ∨
        ∃ a, lookupA (schema c) q.1 = some (some a) ∧ a.rw = false := by
  intro fs
  induction fs with
  | nil => intro wkeys _ q hq; simp at hq
  | cons p rest ih =>
      obtain ⟨n, v⟩ := p
      intro wkeys hgt q hq
      rcases wkeys with _ | ⟨wk, wrest⟩
      · rw [goodTail] at hgt
        obtain ⟨hro, hnd, hrest⟩ := hgt
        rcases List.mem_cons.mp hq with rfl | hq
        · right
          rcases hlk : lookupA (schema c) n with _ | oa
          · simp only [hlk] at hro
          · rcases oa with _ | a
            · simp only [hlk] at hro
            · simp only [hlk] at hro
              exact ⟨a, rfl, hro.1⟩
        · rcases ih [] hrest q hq with h | h
          · simp at h
          · exact Or.inr h
      · rw [goodTail] at hgt
        obtain ⟨hnk, _, hrest⟩ := hgt
        rcases List.mem_cons.mp hq with rfl | hq
        · exact Or.inl (by simp [hnk])
        · rcases ih wrest hrest q hq with h | h
          · exact Or.inl (by simp [h])
          · exact Or.inr h

theorem setA_head_self (k : String) (w v : Value) (rest : List (String × Value)) :
    setA ((k, w) :: rest) k v = (k, v) :: rest := by
  simp [setA]

theorem goodTail_fold (root : Value) (c : ClassName) :
    ∀ (fs : List (String × Value)) (wkeys : List String)
      (old pre : List (String × Value)),
      goodTail root c wkeys fs →
      old.map Prod.fst = wkeys →
      wkeys.Nodup →
      (∀ s ∈ wkeys, ∃ oa, lookupA (schema c) s = some oa ∧
        isWritableEntry oa = true) →
      (∀ q ∈ fs, lookupA pre q.1 = none) →
      List.foldl (fun ac p => setA ac p.1 p.2) (pre ++ old) fs = pre ++ fs := by
  intro fs
  induction fs with
  | nil =>
      intro wkeys old pre hgt hmap hnd hwr hpre
      rcases wkeys with _ | ⟨wk, wrest⟩
      · have hold : old = [] := List.map_eq_nil.mp hmap
        subst hold
        simp
      · rw [goodTail] at hgt
        exact hgt.elim
  | cons p rest ih =>
      obtain ⟨n, v⟩ := p
      intro wkeys old pre hgt hmap hnd hwr hpre
      rcases wkeys with _ | ⟨wk, wrest⟩
      · rw [goodTail] at hgt
        obtain ⟨hro, hnl, hrest⟩ := hgt
        have hold : old = [] := List.map_eq_nil.mp hmap
        subst hold
        rw [List.append_nil, List.foldl_cons]
        rw [setA_of_absent pre n v (hpre (n, v) (by simp))]
        have hpre2 : ∀ q ∈ rest, lookupA (pre ++ [(n, v)]) q.1 = none := by
          intro q hq
          have h1 : lookupA pre q.1 = none := hpre q (by simp [hq])
          rw [lookupA_append_of_none _ _ _ h1]
          have hnm : (n == q.1) = false := by
            have hmem := (lookupA_eq_none_iff rest n).mp hnl
            have : q.1 ≠ n := by
              intro he
              exact hmem (he ▸ List.mem_map_of_mem Prod.fst hq)
            simpa using (Ne.symm this)
          simp [lookupA, hnm]
        have hstep := ih [] [] (pre ++ [(n, v)]) hrest rfl List.nodup_nil
          (by intro s hs; simp at hs) hpre2
        rw [List.append_nil] at hstep
        rw [hstep]
        simp
      · rw [goodTail] at hgt
        obtain ⟨hnk, hgv, hrest⟩ := hgt
        rcases old with _ | ⟨⟨k1, ov⟩, old2⟩
        · simp at hmap
        · simp only [List.map_cons, List.cons.injEq] at hmap
          obtain ⟨hk1, hmap2⟩ := hmap
          have hnd2 := List.nodup_cons.mp hnd
          rw [List.foldl_cons]
          rw [setA_append_of_absent pre _ n v (hpre (n, v) (by simp))]
          have hk1n : k1 = n := by rw [hk1, hnk]
          subst hk1n
          rw [setA_head_self]
          have hre : pre ++ (k1, v) :: old2 = (pre ++ [(k1, v)]) ++ old2 := by simp
          rw [hre]
          have hwrk : ∃ oa, lookupA (schema c) k1 = some oa ∧
              isWritableEntry oa = true := by
            refine hwr k1 ?_
            rw [hnk]
            exact List.mem_cons_self wk wrest
          have hpre2 : ∀ q ∈ rest, lookupA (pre ++ [(k1, v)]) q.1 = none := by
            intro q hq
            have h1 : lookupA pre q.1 = none := hpre q (by simp [hq])
            rw [lookupA_append_of_none _ _ _ h1]
            have hqk : q.1 ≠ k1 := by
              intro he
              rcases goodTail_keys root c rest wrest hrest q hq with hmem | ⟨a2, hlk2, hrw2⟩
              · rw [he, hnk] at hmem
                exact hnd2.1 hmem
              · obtain ⟨oa, hlk, hw⟩ := hwrk
                rw [he] at hlk2
                rw [hlk2] at hlk
                cases hlk
                rw [isWritableEntry, hrw2] at hw
                cases hw
            have : (k1 == q.1) = false := by simpa using (Ne.symm hqk)
            simp [lookupA, this]
          have hstep := ih wrest old2 (pre ++ [(k1, v)]) hrest hmap2 hnd2.2
            (fun s hs => hwr s (List.mem_cons_of_mem wk hs)) hpre2
          rw [hstep]
          simp

theorem toJsonFields_cons_skip (c : ClassName) (n : String) (v : Value)
    (rest : List (String × Value)) (h : lookupA (schema c) n = none) :
    toJsonFields true c ((n, v) :: rest) = toJsonFields true c rest := by
  rw [toJsonFields, h]

theorem toJsonFields_cons_attr (c : ClassName) (n : String) (v : Value)
    (rest : List (String × Value)) (a : Attr)
    (h : lookupA (schema c) n = some (some a)) :
    toJsonFields true c ((n, v) :: rest) =
      match attrToJson a true v with
      | .ok jv =>
          match toJsonFields true c rest with
          | .ok js => .ok ((n, jv) :: js)
          | .error e => .error e
      | .error e =>
          if e.isAttributeError then toJsonFields true c rest
          else .error e := by
  rw [toJsonFields, h]
  rfl

theorem toJsonFields_cons_default (c : ClassName) (n : String) (v : Value)
    (rest : List (String × Value)) (h : lookupA (schema c) n = some none) :
    toJsonFields true c ((n, v) :: rest) =
      match toJsonFields true c rest with
      | .ok js => .ok ((n, v) :: js)
      | .error e => .error e := by
  rw [toJsonFields, h]
  rfl

theorem checkAttr_allowRo (c : ClassName) (n : String) (oa : Option Attr)
    (h : lookupA (schema c) n = some oa) : checkAttr c n true = .ok oa := by
  cases oa with
  | none => rw [checkAttr, h]
  | some a => rw [checkAttr, h]; rfl

theorem setAttrsDecode_cons_attr (c : ClassName) (root : Value) (k : String)
    (j : Value) (rest : List (String × Value)) (acc : List (String × Value))
    (a : Attr) (h : checkAttr c k true = .ok (some a)) :
    setAttrsDecode c root ((k, j) :: rest) acc =
      match attrFromJson a root j with
      | .error e => .error e
      | .ok v2 => setAttrsDecode c root rest (setA acc k v2) := by
  rw [setAttrsDecode, h]

theorem setAttrsDecode_cons_default (c : ClassName) (root : Value) (k : String)
    (j : Value) (rest : List (String × Value)) (acc : List (String × Value))
    (h : checkAttr c k true = .ok none) :
    setAttrsDecode c root ((k, j) :: rest) acc =
      setAttrsDecode c root rest (setA acc k j) := by
  rw [setAttrsDecode, h]

mutual

/-- Encode (`preserve_ro=True`) then decode reproduces a decode-shaped
attribute value exactly. -/
theorem attrRT (root : Value) (a : Attr) :
    (v : Value) → goodVal root (some a) v →
      ∃ j, attrToJson a true v = Except.ok j ∧
        attrFromJson a root j = Except.ok v
  | .none_, _ => ⟨.none_, rfl, rfl⟩
  | .bool b, hg => by
      simp only [goodVal, plainOk] at hg
      exact ⟨.bool b, rfl, by simp [attrFromJson, scalarFromJson, hg.1, hg.2]⟩
  | .str s, hg => by
      simp only [goodVal, plainOk] at hg
      exact ⟨.str s, rfl, by simp [attrFromJson, hg.1, hg.2]⟩
  | .int i, hg => by
      simp only [goodVal, plainOk] at hg
      exact ⟨.int i, rfl, by simp [attrFromJson, scalarFromJson, hg.1, hg.2]⟩
  | .dt d, hg => by
      simp only [goodVal] at hg
      obtain ⟨hat, hvd⟩ := hg
      have hp : parseDate (formatDate d) = some d := by
        rw [parseDate]
        exact parseChars_fmtChars hvd
      refine ⟨.str (formatDate d), ?_, ?_⟩
      · simp only [attrToJson, if_pos hvd.1]
      · simp [attrFromJson, hat, hp]
  | .dict kvs, hg => by
      simp only [goodVal] at hg
      rcases hg with ⟨hat, hal⟩ | ⟨hat, rfl⟩
      · exact ⟨.dict kvs, by simp [attrToJson, hat],
          by simp [attrFromJson, hat, hal]⟩
      · refine ⟨.dict [("items", .list [])], ?_, ?_⟩
        · simp [attrToJson, hat, configToApiList]
        · simp [attrFromJson, hat, configFindItems, truthy]
  | .obj c2 [], hg => by
      simp only [goodVal, goodObjAttrs] at hg
      exact hg.2.2.2.elim
  | .obj c2 ((k, rv) :: rest), hg => by
      simp only [goodVal, goodObjAttrs] at hg
      obtain ⟨hat, hc2, hal, hk, hrv, htail⟩ := hg
      subst hk
      rw [hrv]
      obtain ⟨js, henc, hdec⟩ := tailRT root c2 rest (writableKeys c2) htail
      have hpre : ∀ q ∈ rest, lookupA [("_resource_root", root)] q.1 = none := by
        intro q hq
        have hqr : q.1 ≠ "_resource_root" := by
          intro he
          rcases goodTail_keys root c2 rest (writableKeys c2) htail q hq with
            hmem | ⟨a2, hlk2, _⟩
          · obtain ⟨oa, hlk, _⟩ := writableKeys_spec c2 q.1 hmem
            rw [he, schema_no_resource_root] at hlk
            cases hlk
          · rw [he, schema_no_resource_root] at hlk2
            cases hlk2
        have hne : ("_resource_root" == q.1) = false := by
          simpa using (Ne.symm hqr)
        simp [lookupA, hne]
      have hfold := goodTail_fold root c2 rest (writableKeys c2)
        (writableInit c2) [("_resource_root", root)] htail rfl
        (writableKeysNodup c2) (fun s hs => writableKeys_spec c2 s hs) hpre
      have h1 : toJsonFields true c2 (("_resource_root", root) :: rest) =
          Except.ok js := by
        rw [toJsonFields_cons_skip c2 _ root rest (schema_no_resource_root c2)]
        exact henc
      have h2 : setAttrsDecode c2 root js (baseAttrs c2 root) =
          Except.ok (("_resource_root", root) :: rest) := by
        rw [hdec (baseAttrs c2 root)]
        have hb : baseAttrs c2 root =
            [("_resource_root", root)] ++ writableInit c2 := rfl
        rw [hb, hfold]
        rfl
      refine ⟨.dict js, ?_, ?_⟩
      · simp only [attrToJson, h1]
      · simp [attrFromJson, hat, hc2, hal, h2]
  | .list vs, hg => by
      simp only [goodVal] at hg
      obtain ⟨hat1, hat2, hal, hlist⟩ := hg
      obtain ⟨js, henc, hdec⟩ := listRT root a vs hlist
      refine ⟨.list js, ?_, ?_⟩
      · simp [attrToJson, hal, henc]
      · simp [attrFromJson, hat1, hat2, hal, hdec]
  | .apiList xs, hg => by
      simp only [goodVal] at hg
      exact Option.noConfusion hg
termination_by structural v => v

/-- Element-wise round trip for plain list values. -/
theorem listRT (root : Value) (a : Attr) :
    (vs : List Value) → goodList root a vs →
      ∃ js, encodePlainElems a true vs = Except.ok js ∧
        decodePlainElems a root js = Except.ok vs
  | [], _ => ⟨[], rfl, rfl⟩
  | v :: rest, hg => by
      rw [goodList] at hg
      obtain ⟨hv, hrest⟩ := hg
      obtain ⟨j, hej, hdj⟩ := attrRT root a v hv
      obtain ⟨js, hes, hds⟩ := listRT root a rest hrest
      refine ⟨j :: js, ?_, ?_⟩
      · simp only [encodePlainElems, hej, hes]
      · simp only [decodePlainElems, hdj, hds]
termination_by structural vs => vs

/-- Round trip for the canonical `__dict__` tail: encoding emits every
attribute in order, and decoding the emitted fields re-applies exactly the
original assignments. -/
theorem tailRT (root : Value) (c : ClassName) :
    (fs : List (String × Value)) → ∀ wkeys, goodTail root c wkeys fs →
      ∃ js, toJsonFields true c fs = Except.ok js ∧
        ∀ acc, setAttrsDecode c root js acc =
          Except.ok (List.foldl (fun ac p => setA ac p.1 p.2) acc fs)
  | [], wkeys, hg => by
      cases wkeys with
      | nil => exact ⟨[], rfl, fun acc => rfl⟩
      | cons wk wrest =>
          rw [goodTail] at hg
          exact hg.elim
  | (n, v) :: rest, wkeys, hg => by
      cases wkeys with
      | cons wk wrest =>
          rw [goodTail] at hg
          obtain ⟨hnk, hgv, hrest⟩ := hg
          rcases hlk : lookupA (schema c) n with _ | oa
          · simp only [hlk] at hgv
          · simp only [hlk] at hgv
            obtain ⟨js, henc, hdec⟩ := tailRT root c rest wrest hrest
            cases oa with
            | some a =>
                obtain ⟨j, hej, hdj⟩ := attrRT root a v hgv
                refine ⟨(n, j) :: js, ?_, ?_⟩
                · rw [toJsonFields_cons_attr c n v rest a hlk]
                  simp only [hej, henc]
                · intro acc
                  rw [setAttrsDecode_cons_attr c root n j js acc a
                    (checkAttr_allowRo c n (some a) hlk)]
                  simp only [hdj]
                  rw [hdec (setA acc n v), List.foldl_cons]
            | none =>
                refine ⟨(n, v) :: js, ?_, ?_⟩
                · rw [toJsonFields_cons_default c n v rest hlk]
                  simp only [henc]
                · intro acc
                  rw [setAttrsDecode_cons_default c root n v js acc
                    (checkAttr_allowRo c n none hlk)]
                  rw [hdec (setA acc n v), List.foldl_cons]
      | nil =>
          rw [goodTail] at hg
          obtain ⟨hro, hnl, hrest⟩ := hg
          rcases hlk : lookupA (schema c) n with _ | oa
          · simp only [hlk] at hro
          · cases oa with
            | none =>
                simp only [hlk] at hro
            | some a =>
                simp only [hlk] at hro
                obtain ⟨hrw, hgv⟩ := hro
                obtain ⟨js, henc, hdec⟩ := tailRT root c rest [] hrest
                obtain ⟨j, hej, hdj⟩ := attrRT root a v hgv
                refine ⟨(n, j) :: js, ?_, ?_⟩
                · rw [toJsonFields_cons_attr c n v rest a hlk]
                  simp only [hej, henc]
                · intro acc
                  rw [setAttrsDecode_cons_attr c root n j js acc a
                    (checkAttr_allowRo c n (some a) hlk)]
                  simp only [hdj]
                  rw [hdec (setA acc n v), List.foldl_cons]
termination_by structural fs => fs

end

/-- Claim C1 (amended): `to_json_dict(preserve_ro=True)` followed by
`from_json_dict` reproduces an instance exactly when the instance is
decode-shaped (canonical): `_resource_root` holding the decode root first,
then the writable attributes in schema order, then read-only schema
attributes without duplicates, with every attribute value itself
decode-shaped for its descriptor — in particular config-typed mappings
empty, timestamps valid and within `strftime`'s supported year range, and
no attribute holding a populated `ApiList` (decoding a populated
list-of-elements attribute produces an `ApiList`, on which encoding itself
raises `TypeError`, per the counterexample). -/
theorem C1_roundtrip_canonical (root : Value) (c : ClassName)
    (attrs : List (String × Value)) (h : goodObjAttrs root c attrs) :
    ∃ js, toJsonObj true c attrs = Except.ok (.dict js) ∧
      fromJsonDict c (.dict js) root = Except.ok (.obj c attrs) := by
  rcases attrs with _ | ⟨⟨k, rv⟩, rest⟩
  · rw [goodObjAttrs] at h
    exact h.elim
  · rw [goodObjAttrs] at h
    obtain ⟨hk, hrv, htail⟩ := h
    subst hk
    rw [hrv]
    obtain ⟨js, henc, hdec⟩ := tailRT root c rest (writableKeys c) htail
    have hpre : ∀ q ∈ rest, lookupA [("_resource_root", root)] q.1 = none := by
      intro q hq
      have hqr : q.1 ≠ "_resource_root" := by
        intro he
        rcases goodTail_keys root c rest (writableKeys c) htail q hq with
          hmem | ⟨a2, hlk2, _⟩
        · obtain ⟨oa, hlk, _⟩ := writableKeys_spec c q.1 hmem
          rw [he, schema_no_resource_root] at hlk
          cases hlk
        · rw [he, schema_no_resource_root] at hlk2
          cases hlk2
      have hne : ("_resource_root" == q.1) = false := by
        simpa using (Ne.symm hqr)
      simp [lookupA, hne]
    have hfold := goodTail_fold root c rest (writableKeys c)
      (writableInit c) [("_resource_root", root)] htail rfl
      (writableKeysNodup c) (fun s hs => writableKeys_spec c s hs) hpre
    have h1 : toJsonFields true c (("_resource_root", root) :: rest) =
        Except.ok js := by
      rw [toJsonFields_cons_skip c _ root rest (schema_no_resource_root c)]
      exact henc
    refine ⟨js, ?_, ?_⟩
    · simp only [toJsonObj, h1]
    · have h2 : setAttrsDecode c root js (baseAttrs c root) =
          Except.ok (("_resource_root", root) :: rest) := by
        rw [hdec (baseAttrs c root)]
        have hb : baseAttrs c root =
            [("_resource_root", root)] ++ writableInit c := rfl
        rw [hb, hfold]
        rfl
      simp only [fromJsonDict, h2]

/-- The amended C1 theorem applied at a concrete canonical `ApiHostRef`
instance. -/
theorem C1_witness :
    goodObjAttrs Value.none_ ClassName.apiHostRef
      [("_resource_root", Value.none_), ("hostId", Value.str "h1")] ∧
    (∃ js, toJsonObj true .apiHostRef
        [("_resource_root", Value.none_), ("hostId", Value.str "h1")] =
          Except.ok (.dict js) ∧
      fromJsonDict .apiHostRef (.dict js) Value.none_ =
        Except.ok (.obj .apiHostRef
          [("_resource_root", Value.none_), ("hostId", Value.str "h1")])) :=
  ⟨by simp [goodObjAttrs, goodTail, goodVal, plainOk, writableKeys,
      writableInit, schema, lookupA],
   C1_roundtrip_canonical Value.none_ .apiHostRef _
     (by simp [goodObjAttrs, goodTail, goodVal, plainOk, writableKeys,
        writableInit, schema, lookupA])⟩
